import Mathlib

/-!
Verification of the event-stream serializer and the image converter of the
`pullup` / `pulldown_typst` repository.

The embedding translates, at the level of Unicode code points, the Rust
sources:

* `pulldown_typst/src/markup.rs` — the `TypstMarkup` serializer together
  with its helpers `typst_escape`, `generate_label_id` and
  `process_link_url_impl`;
* `pullup/src/markdown/to/typst.rs` — the `ConvertImages` stream converter.

Rust `String` values are modelled as `List Char`; Rust iterator state
machines are modelled as explicit state records with step functions; a Rust
panic (`expect`, `unreachable!`, `assert_eq!`, `todo!`, `unwrap`) is
modelled as `Option.none` / a dedicated `panic` result.  All definitions
are structural recursions (fuel is used where the Rust loop is not
structural), so every run can be evaluated by `decide` / `rfl`.
-/

set_option linter.unusedVariables false

/-- Strings at the Rust `char` (Unicode scalar value) level. -/
abbrev Str := List Char

/-! ### Generic string helpers mirroring Rust `str` methods -/

/-- Worker for `strReplace`, structural in its fuel (which the wrapper sets
to the length of the subject, always enough because each step consumes at
least one character). -/
def replaceGo (pat rep : Str) : Nat → Str → Str
  | _, [] => []
  | 0, s => s
  | fuel + 1, c :: cs =>
    if pat ≠ [] ∧ pat.isPrefixOf (c :: cs) then
      rep ++ replaceGo pat rep fuel ((c :: cs).drop pat.length)
    else
      c :: replaceGo pat rep fuel cs

/-- Rust `str::replace`: leftmost, non-overlapping replacement of every
occurrence of `pat` by `rep`. -/
def strReplace (s pat rep : Str) : Str := replaceGo pat rep s.length s

/-- Worker for `trimStartSeq` (fuel bounded by the subject length). -/
def trimStartSeqGo (pat : Str) : Nat → Str → Str
  | 0, s => s
  | fuel + 1, s =>
    if pat ≠ [] ∧ pat.isPrefixOf s then trimStartSeqGo pat fuel (s.drop pat.length) else s

/-- Rust `str::trim_start_matches` with a string pattern: repeatedly remove
the pattern from the front. -/
def trimStartSeq (s pat : Str) : Str := trimStartSeqGo pat s.length s

/-- Drop the characters satisfying `p` from both ends. -/
def dropAround (p : Char → Bool) (s : Str) : Str :=
  ((s.dropWhile p).reverse.dropWhile p).reverse

/-- The Unicode `White_Space` code points — the set recognised by Rust
`char::is_whitespace`. -/
def rustIsWhitespace (c : Char) : Bool :=
  c.toNat ∈ [0x09, 0x0A, 0x0B, 0x0C, 0x0D, 0x20, 0x85, 0xA0, 0x1680,
    0x2000, 0x2001, 0x2002, 0x2003, 0x2004, 0x2005, 0x2006, 0x2007, 0x2008,
    0x2009, 0x200A, 0x2028, 0x2029, 0x202F, 0x205F, 0x3000]

/-- Rust `str::trim`: strip whitespace from both ends. -/
def rustTrim (s : Str) : Str := dropAround rustIsWhitespace s

/-- Rust `char::to_lowercase`, restricted to the ASCII mapping.  This is an
under-approximation of the Unicode mapping: on uppercase non-ASCII letters
the Rust function lowercases (`'Я'` → `'я'`) while this one is the identity.
The full mapping agrees with this one exactly on ASCII and on caseless
characters (digits, CJK, whitespace); every label property below is
therefore stated with an all-ASCII hypothesis on the text it quantifies
over, and concrete label computations use ASCII or caseless text only. -/
def rustToLower (c : Char) : Str :=
  if 'A' ≤ c ∧ c ≤ 'Z' then [Char.ofNat (c.toNat + 32)] else [c]

/-! ### `typst_escape` (markup.rs lines 4–13) -/

/-- `typst_escape`: the chained `str::replace` calls of the source, in the
same order. -/
def typst_escape (s : Str) : Str :=
  strReplace (strReplace (strReplace (strReplace (strReplace (strReplace (strReplace
    (strReplace s "$".data "\\$".data)
      "#".data "\\#".data)
      "<".data "\\<".data)
      ">".data "\\>".data)
      "*".data "\\*".data)
      "_".data " \\_".data)
      "`".data "\\`".data)
      "@".data "\\@".data

/-! ### `generate_label_id` (markup.rs lines 17–38) -/

/-- The per-character map inside `generate_label_id`: alphanumeric
characters, `'-'` and `'_'` are lowercased and kept, whitespace becomes
`'-'`, and any other character is kept as-is.  `Char.isAlphanum` is the
ASCII restriction of Rust's Unicode `char::is_alphanumeric`, so together
with `rustToLower` this map is faithful exactly on ASCII and caseless
characters; on cased non-ASCII letters (which Rust lowercases) it is the
identity. -/
def labelChar (c : Char) : Str :=
  if c.isAlphanum ∨ c = '-' ∨ c = '_' then rustToLower c
  else if rustIsWhitespace c then ['-']
  else [c]

/-- Rust `str::split('-')`: the (possibly empty) pieces between `'-'`
occurrences. -/
def splitDash : Str → List Str
  | [] => [[]]
  | c :: cs =>
    if c = '-' then [] :: splitDash cs
    else
      match splitDash cs with
      | [] => [[c]]
      | p :: ps => (c :: p) :: ps

def isDash (c : Char) : Bool := c = '-'

/-- Rust `str::trim_matches('-')`. -/
def trimDash (s : Str) : Str := dropAround isDash s

/-- `generate_label_id`: map characters, split on `'-'`, drop empty pieces,
re-join with `'-'`, trim `'-'` from both ends.  Through `labelChar` this is
the Rust function restricted to ASCII/caseless text: on strings containing
cased non-ASCII letters the Rust function lowercases them while this one
keeps them, so the label theorems below quantify over all-ASCII strings. -/
def generate_label_id (s : Str) : Str :=
  trimDash (List.intercalate "-".data
    ((splitDash ((s.map labelChar).flatten)).filter (fun p => p ≠ [])))

/-! ### `process_link_url_impl` (markup.rs lines 54–122) -/

/-- Association list standing in for the `HashMap` label map: `insert`
conses in front, `get` takes the first match — observationally the
`HashMap` insert/get behaviour. -/
def mapGet (m : List (Str × Str)) (k : Str) : Option Str :=
  (m.find? (fun p => p.1 == k)).map (fun p => p.2)

/-- `format!("<{}>", l)`. -/
def wrapLabel (l : Str) : Str := "<".data ++ l ++ ">".data

/-- The tail of `process_link_url_impl` (markup.rs lines 89–121), reached
when the URL is not resolved as an internal anchor: strip one leading
`"./"`, rewrite a `.md` extension (before an anchor, if any) to `.typ`. -/
def processLinkTail (processed0 : Str) : Str :=
  let processed := if "./".data.isPrefixOf processed0 then processed0.drop 2 else processed0
  match processed.findIdx? (fun c => c = '#') with
  | some anchorPos =>
    let filePart := processed.take anchorPos
    let anchorPart := processed.drop anchorPos
    let filePartTrimmed := (filePart.reverse.dropWhile (fun c => c = '.')).reverse
    if filePartTrimmed = [] then
      wrapLabel (generate_label_id (anchorPart.dropWhile (fun c => c = '#')))
    else
      let filePart2 :=
        if ".md".data.isSuffixOf filePart then
          filePart.take (filePart.length - 3) ++ ".typ".data
        else filePart
      filePart2 ++ anchorPart
  | none =>
    if ".md".data.isSuffixOf processed then
      processed.take (processed.length - 3) ++ ".typ".data
    else processed

/-- `process_link_url_impl`.  The Rust early-`return`s become nested
branches; the fall-through after the `"./#"`-style check with an empty
anchor goes to `processLinkTail`. -/
def process_link_url_impl (url : Str) (labelMap : Option (List (Str × Str))) : Str :=
  if url.head? = some '#' then
    let anchor := url.drop 1
    match labelMap with
    | some m =>
      match mapGet m anchor with
      | some label => wrapLabel label
      | none =>
        let label := generate_label_id anchor
        match mapGet m label with
        | some existing => wrapLabel existing
        | none => wrapLabel label
    | none => wrapLabel (generate_label_id anchor)
  else
    let anchorCand :=
      ((trimStartSeq url "./".data).dropWhile (fun c => c = '/')).dropWhile (fun c => c = '#')
    if (url = "#".data ∨ "./#".data.isPrefixOf url ∨ "/#".data.isPrefixOf url) ∧ anchorCand ≠ [] then
      wrapLabel (generate_label_id anchorCand)
    else processLinkTail url

/-! ### The Typst event vocabulary (as used by `markup.rs`) -/

inductive TableCellAlignment
  | left
  | center
  | right
  | none
deriving DecidableEq, Repr

inductive QuoteType
  | block
  | inline
deriving DecidableEq, Repr

inductive QuoteQuotes
  | doNotWrapInDoubleQuotes
  | wrapInDoubleQuotes
  | auto
deriving DecidableEq, Repr

inductive LinkType
  | content
  | url
  | autolink
deriving DecidableEq, Repr

inductive ShowType
  | showSet
  | function
deriving DecidableEq, Repr

inductive CodeBlockDisplay
  | block
  | inline
deriving DecidableEq, Repr

/-- Typst tags.  `Heading` carries the level (`NonZeroU8` in Rust, here a
`Nat`) and the table-of-contents / bookmarks flags; `BulletList` and
`NumberedList` payloads are never inspected by the serializer and are
omitted. -/
inductive Tag
  | Paragraph
  | Heading (level : Nat) (toc : Bool) (bookmarks : Bool)
  | Emphasis
  | Strong
  | Link (ty : LinkType) (url : Str)
  | Quote (ty : QuoteType) (quotes : QuoteQuotes) (attribution : Option Str)
  | CodeBlock (fence : Option Str) (display : CodeBlockDisplay)
  | BulletList
  | NumberedList
  | Item
  | Table (alignment : List TableCellAlignment)
  | TableHead
  | TableRow
  | TableCell
  | Show (ty : ShowType) (selector : Str) (set : Option (Str × Str × Str)) (func : Option Str)
deriving DecidableEq, Repr

/-- Typst events (the serializer's input vocabulary). -/
inductive Event
  | Start (t : Tag)
  | End (t : Tag)
  | Raw (s : Str)
  | Text (s : Str)
  | Code (s : Str)
  | Linebreak
  | Parbreak
  | PageBreak
  | Line (lstart lend : Option (Str × Str)) (llength langle lstroke : Option Str)
  | Let (lhs rhs : Str)
  | FunctionCall (v : Option Str) (f : Str) (args : List Str)
  | DocumentFunctionCall (args : List Str)
  | Set (ele k v : Str)
  | DocumentSet (k v : Str)
deriving DecidableEq, Repr

/-! ### The `TypstMarkup` serializer state (markup.rs lines 129–156) -/

/-- The serializer state.  `tag_queue` and `codeblock_queue` are
`VecDeque`s used as stacks (`push_back`/`pop_back`/`back`); the head of
`tag_queue` models the back.  `codeblock_queue` holds units, so only its
length matters. -/
structure MarkupState where
  tag_queue : List Tag
  codeblock_depth : Nat
  row_buffer : Option Str
  cell_buffer : Option Str
  paragraph_closed_for_image : Bool
  heading_text_buffer : Option Str
  label_map : List (Str × Str)
deriving DecidableEq, Repr

/-- `TypstMarkup::new`. -/
def markupInit : MarkupState :=
  { tag_queue := []
    codeblock_depth := 0
    row_buffer := none
    cell_buffer := none
    paragraph_closed_for_image := false
    heading_text_buffer := none
    label_map := [] }

/-- The `Start` arm of the serializer's `match` (markup.rs lines 180–302),
before the tag push and the buffer redirection: the optional fragment
(`None` for the list tags) and the state after the arm's side effects.  An
outer `none` models a panic (`expect` / `unreachable!`). -/
def startArm (st : MarkupState) (x : Tag) : Option (Option Str × MarkupState) :=
  match x with
  | .Paragraph => some (some "#par()[".data, st)
  | .Show ty selector set func =>
    match ty with
    | .showSet =>
      match set with
      | some (ele, k, v) =>
        some (some ("#show ".data ++ selector ++ ": set ".data ++ ele ++ "(".data
          ++ k ++ ":".data ++ v ++ ")".data), st)
      | none => none
    | .function =>
      match func with
      | some fb => some (some ("#show ".data ++ selector ++ ":".data ++ fb), st)
      | none => none
  | .Heading n _ _ =>
    some (some (List.replicate n '=' ++ " ".data),
      { st with heading_text_buffer := some [] })
  | .CodeBlock fence _ =>
    some (some (List.replicate (6 + st.codeblock_depth) '`' ++ fence.getD [] ++ "\n".data),
      { st with codeblock_depth := st.codeblock_depth + 1 })
  | .BulletList => some (none, st)
  | .NumberedList => some (none, st)
  | .Item =>
    match st.tag_queue.head? with
    | some .BulletList => some (some "- ".data, st)
    | some .NumberedList => some (some "+ ".data, st)
    | some _ => none
    | none => none
  | .Emphasis => some (some "#emph[".data, st)
  | .Strong => some (some "#strong[".data, st)
  | .Link _ url =>
    let processed :=
      if url.head? = some '<' then url
      else process_link_url_impl url (some st.label_map)
    let linkMarkup :=
      if processed.head? = some '<' then "#link(".data ++ processed ++ ")[".data
      else "#link(\"".data ++ processed ++ "\")[".data
    some (some linkMarkup, st)
  | .Quote ty quotes attribution =>
    let blockS : Str :=
      match ty with
      | .block => "block: true,".data
      | .inline => "block: false,".data
    let quotesS : Str :=
      match quotes with
      | .doNotWrapInDoubleQuotes => "quotes: false,".data
      | .wrapInDoubleQuotes => "quotes: true,".data
      | .auto => "quotes: auto,".data
    match attribution with
    | some a =>
      some (some ("#quote(".data ++ blockS ++ " ".data ++ quotesS
        ++ " attribution: [".data ++ a ++ "])[".data), st)
    | none =>
      some (some ("#quote(".data ++ blockS ++ " ".data ++ quotesS ++ ")[".data), st)
  | .Table alignment =>
    let alignments : List Str := alignment.map (fun a =>
      match a with
      | .left => "left".data
      | .center => "center".data
      | .right => "right".data
      | .none => "start".data)
    let params : List Str :=
      if ¬ (alignments.all (fun a => a = "start".data)) then
        ["columns: ".data ++ (Nat.repr alignment.length).data,
         "align: (".data ++ List.intercalate ", ".data alignments ++ ")".data]
      else
        ["columns: ".data ++ (Nat.repr alignment.length).data]
    some (some ("#table(\n  ".data ++ List.intercalate ", ".data params ++ ",\n".data), st)
  | .TableRow => some (some [], { st with row_buffer := some [] })
  | .TableHead => some (some [], { st with row_buffer := some [] })
  | .TableCell => some (some [], { st with cell_buffer := some [] })

/-- `buf.truncate(buf.len() - 2)` applied when the row buffer ends with
`", "` (markup.rs lines 366–369 / 378–381 / 172–174). -/
def trimSep (b : Str) : Str :=
  if ", ".data.isSuffixOf b then b.take (b.length - 2) else b

/-- Escaping applied to a drained cell buffer at `TableCell` end
(markup.rs lines 391–416): `<br>` variants to `\`-newline, `//` to
`\/\/`, then `*` to `\*` unless the output already ends with `\`. -/
def starEscapeGo (acc : Str) : Str → Str
  | [] => acc
  | c :: cs =>
    if c = '*' then
      if acc.getLast? = some '\\' then starEscapeGo (acc ++ ['*']) cs
      else starEscapeGo (acc ++ ['\\', '*']) cs
    else starEscapeGo (acc ++ [c]) cs

/-- The `*`-escaping loop of the `TableCell` end arm (checks the already
built output for a trailing backslash, exactly as the source). -/
def starEscape (s : Str) : Str := starEscapeGo [] s

/-- The full cell-content rewrite of the `TableCell` end arm, in source
order: line-break conventions, `//`, `*`, then `trim`. -/
def cellEscape (content : Str) : Str :=
  rustTrim (starEscape (strReplace
    (strReplace (strReplace (strReplace content
      "<br>".data "\\\n".data)
      "<br/>".data "\\\n".data)
      "<br />".data "\\\n".data)
      "//".data "\\/\\/".data))

/-- `[content]`, or `[]` for empty content (markup.rs lines 430–434). -/
def wrapCell (c : Str) : Str :=
  if c = [] then "[]".data else "[".data ++ c ++ "]".data

/-- Append a formatted cell to the row buffer with a `", "` separator when
the buffer is non-empty (markup.rs lines 437–446; a missing row buffer only
logs a warning and drops the cell). -/
def rowAppendCell (st : MarkupState) (formatted : Str) : MarkupState :=
  match st.row_buffer with
  | some buf =>
    let buf2 := if buf ≠ [] then buf ++ ", ".data else buf
    { st with row_buffer := some (buf2 ++ formatted) }
  | none => st

/-- The `End` arm of the serializer's `match` (markup.rs lines 330–459),
before the tag-stack pop and the buffer redirection: the fragment and the
state after the arm's side effects. -/
def endArm (st : MarkupState) (x : Tag) : Str × MarkupState :=
  match x with
  | .Paragraph => ("]\n".data, st)
  | .Heading _ _ _ =>
    match st.heading_text_buffer with
    | some t =>
      (" <".data ++ generate_label_id t ++ ">\n".data,
        { st with
            heading_text_buffer := none
            label_map := (t, generate_label_id t) :: st.label_map })
    | none => ("\n".data, st)
  | .Item => ("\n".data, st)
  | .Emphasis => ("]".data, st)
  | .Strong => ("]".data, st)
  | .BulletList => ([], st)
  | .NumberedList => ([], st)
  | .CodeBlock _ _ =>
    ((List.replicate (6 + (st.codeblock_depth - 1)) '`') ++ "\n".data,
      { st with codeblock_depth := st.codeblock_depth - 1 })
  | .Link _ _ => ("]".data, st)
  | .Show _ _ _ _ => ("\n".data, st)
  | .Quote ty _ _ =>
    match ty with
    | .inline => ("]".data, st)
    | .block => ("]\n".data, st)
  | .Table _ => (")\n".data, st)
  | .TableHead =>
    match st.row_buffer with
    | some buf => ("  ".data ++ trimSep buf ++ ",\n".data, { st with row_buffer := none })
    | none => ("\n".data, st)
  | .TableRow =>
    match st.row_buffer with
    | some buf => ("  ".data ++ trimSep buf ++ ",\n".data, { st with row_buffer := none })
    | none => ("\n".data, st)
  | .TableCell =>
    match st.cell_buffer with
    | some content =>
      ([], rowAppendCell { st with cell_buffer := none } (wrapCell (cellEscape content)))
    | none => ([], rowAppendCell st "[]".data)

/-- Buffer redirection used by the `Start`, `Raw` and `Text` arms
(markup.rs lines 309–319 / 484–492 / 507–515): cell buffer first, then row
buffer, else yield. -/
def redirectOut (st : MarkupState) (frag : Str) : Str × MarkupState :=
  match st.cell_buffer with
  | some cb => ([], { st with cell_buffer := some (cb ++ frag) })
  | none =>
    match st.row_buffer with
    | some rb => ([], { st with row_buffer := some (rb ++ frag) })
    | none => (frag, st)

/-- `matches!(x, Tag::TableRow | Tag::TableHead | Tag::TableCell)`. -/
def isTableRowish (x : Tag) : Bool :=
  match x with
  | .TableRow => true
  | .TableHead => true
  | .TableCell => true
  | _ => false

/-- Buffer redirection of the `End` arm (markup.rs lines 466–480): cell
buffer first; the row buffer only for non-table tags. -/
def redirectEndOut (st : MarkupState) (x : Tag) (frag : Str) : Str × MarkupState :=
  match st.cell_buffer with
  | some cb => ([], { st with cell_buffer := some (cb ++ frag) })
  | none =>
    if st.row_buffer.isSome ∧ ¬ isTableRowish x then
      match st.row_buffer with
      | some rb => ([], { st with row_buffer := some (rb ++ frag) })
      | none => (frag, st)
    else (frag, st)

/-- One call of `TypstMarkup::next` on an available event: the yielded
fragment and the next state, or `none` for a panic. -/
def markupStep (st : MarkupState) (e : Event) : Option (Str × MarkupState) :=
  match e with
  | .Start x =>
    match startArm st x with
    | none => none
    | some (ret, st1) =>
      let st2 := { st1 with tag_queue := x :: st1.tag_queue }
      match ret with
      | none => some ([], st2)
      | some r => some (redirectOut st2 r)
  | .End x =>
    if x = .Paragraph ∧ st.paragraph_closed_for_image then
      some ([], { st with paragraph_closed_for_image := false })
    else
      let (ret, st1) := endArm st x
      match st1.tag_queue with
      | [] => none
      | t :: rest =>
        if t = x then some (redirectEndOut { st1 with tag_queue := rest } x ret)
        else none
  | .Raw x => some (redirectOut st x)
  | .Text x =>
    let st1 :=
      match st.heading_text_buffer with
      | some hb => { st with heading_text_buffer := some (hb ++ x) }
      | none => st
    let content := if st1.codeblock_depth = 0 then typst_escape x else x
    some (redirectOut st1 content)
  | .Code x =>
    let content := "#raw(\"".data
      ++ strReplace (strReplace x "\\".data "\\\\".data) "\"".data "\\\"".data
      ++ "\")".data
    match st.row_buffer with
    | some rb => some ([], { st with row_buffer := some (rb ++ content) })
    | none => some (content, st)
  | .Linebreak => some ("#linebreak()\n".data, st)
  | .Parbreak => some ("#parbreak()\n".data, st)
  | .PageBreak => some ("#pagebreak()\n".data, st)
  | .Line lstart lend llength langle lstroke =>
    let parts : List Str :=
      (match lstart with
       | some (a, b) => ["start: (".data ++ a ++ ", ".data ++ b ++ ")".data]
       | none => [])
      ++ (match lend with
          | some (a, b) => ["end: (".data ++ a ++ ", ".data ++ b ++ ")".data]
          | none => [])
      ++ (match llength with
          | some l => ["length: ".data ++ l]
          | none => [])
      ++ (match langle with
          | some a => ["angle: ".data ++ a]
          | none => [])
      ++ (match lstroke with
          | some s => ["stroke: ".data ++ s]
          | none => [])
    some ("#line(".data ++ List.intercalate ", ".data parts ++ ")\n".data, st)
  | .Let lhs rhs =>
    some ("#let ".data ++ lhs ++ " = ".data ++ rhs ++ "\n".data, st)
  | .FunctionCall v f args =>
    let argsJ := List.intercalate ", ".data args
    let preAndState :=
      match st.tag_queue with
      | .Paragraph :: rest =>
        if f = "image".data then
          ("]\n".data,
            { st with tag_queue := rest, paragraph_closed_for_image := true })
        else (([] : Str), st)
      | _ => (([] : Str), st)
    let body :=
      match v with
      | some vv => "#".data ++ vv ++ ".".data ++ f ++ "(".data ++ argsJ ++ ")\n".data
      | none => "#".data ++ f ++ "(".data ++ argsJ ++ ")\n".data
    some (preAndState.1 ++ body, preAndState.2)
  | .DocumentFunctionCall args =>
    some ("#document(".data ++ List.intercalate ", ".data args ++ ")\n".data, st)
  | .Set ele k v =>
    some ("#set ".data ++ ele ++ "(".data ++ k ++ ": ".data ++ v ++ ")\n".data, st)
  | .DocumentSet k v =>
    some ("#set document(".data ++ k ++ ": ".data ++ v ++ ")\n".data, st)

/-- Drive the serializer over a whole event list.  The `[]` case is the
upstream-`None` branch of `next` (markup.rs lines 169–179): a pending row
buffer is emitted, with a trailing `", "` removed, as one final fragment. -/
def markupRun (st : MarkupState) : List Event → Option (List Str)
  | [] =>
    match st.row_buffer with
    | some buf => some [trimSep buf]
    | none => some []
  | e :: rest =>
    match markupStep st e with
    | none => none
    | some (s, st') => (markupRun st' rest).map (fun l => s :: l)

/-- The concatenation of all fragments, as `collect::<String>()` does. -/
def concatRun (st : MarkupState) (events : List Event) : Option Str :=
  (markupRun st events).map List.flatten

/-! ### The `pullup` pipeline event vocabulary (markdown/to/typst.rs)

`ConvertImages` consumes `ParserEvent`s, a sum of not-yet-converted
Markdown events and already-converted Typst events.  Of the Markdown
vocabulary the converter inspects only paragraphs, images, text and breaks;
every other Markdown construct is passed through a wildcard arm and is
modelled by an opaque index. -/

inductive MdTag
  | Paragraph
  | Image (url : Str) (title : Str)
  | OtherTag (k : Nat)
deriving DecidableEq, Repr

inductive MdEvent
  | Start (t : MdTag)
  | End (t : MdTag)
  | Text (s : Str)
  | SoftBreak
  | HardBreak
  | OtherEvent (k : Nat)
deriving DecidableEq, Repr

inductive PEvent
  | md (e : MdEvent)
  | ty (e : Event)
deriving DecidableEq, Repr

/-! ### `ConvertImages` (typst.rs lines 147–608) -/

/-- The `ConvertImages` state (typst.rs lines 147–170).  The head of
`buffer` is the `VecDeque` front. -/
structure CIState where
  in_image : Bool
  in_paragraph : Bool
  in_heading : Bool
  paragraph_closed_for_image : Bool
  buffer : List PEvent
deriving DecidableEq, Repr

/-- `ConvertImages::new`. -/
def ciInit : CIState :=
  { in_image := false
    in_paragraph := false
    in_heading := false
    paragraph_closed_for_image := false
    buffer := [] }

/-- `url.strip_prefix("./").unwrap_or(url)` (typst.rs lines 223, 278). -/
def stripDotSlash (url : Str) : Str :=
  if "./".data.isPrefixOf url then url.drop 2 else url

/-- The Typst `image` function-call event built for a Markdown image with
the given URL (typst.rs lines 223–225 and 278–280): the URL, `"./"`
stripped, wrapped in double quotes, as the single argument. -/
def imageCallEvent (url : Str) : PEvent :=
  .ty (.FunctionCall none "image".data [['"'] ++ stripDotSlash url ++ ['"']])

/-- The outer skip loop of the sole-image-paragraph path (typst.rs lines
229–254): drop everything up to and including the Markdown image end;
`none` when the input is exhausted first. -/
def soleImgSkip : List PEvent → Option (List PEvent)
  | [] => none
  | (.md (.End (.Image _ _))) :: r => some r
  | _ :: r => soleImgSkip r

/-- The inner skip loop of the sole-image-paragraph path (typst.rs lines
233–248): drop paragraph/text events; the first other event is pushed back
(returned separately) and scanning stops. -/
def soleImgInner : List PEvent → (Option PEvent × List PEvent)
  | [] => (none, [])
  | (.md (.End .Paragraph)) :: r => soleImgInner r
  | (.ty (.End .Paragraph)) :: r => soleImgInner r
  | (.ty (.Start .Paragraph)) :: r => soleImgInner r
  | (.ty (.Text _)) :: r => soleImgInner r
  | (.md (.Text _)) :: r => soleImgInner r
  | e :: r => (some e, r)

/-- Outcome of the skip loop after a Markdown image end (typst.rs lines
305–321): end of iteration, a recursive `self.next()` call, or a direct
yield. -/
inductive ImgEndRes
  | stop
  | recurse (r : List PEvent)
  | emitR (e : PEvent) (r : List PEvent)
deriving DecidableEq, Repr

/-- The skip loop after a Markdown image end, in source arm order. -/
def imgEndScan : List PEvent → ImgEndRes
  | [] => .stop
  | (.md (.Text _)) :: r => imgEndScan r
  | (.ty (.Text _)) :: r => imgEndScan r
  | (.md (.End .Paragraph)) :: r => imgEndScan r
  | (.ty (.Start .Paragraph)) :: r => imgEndScan r
  | (.ty (.End .Paragraph)) :: r => .recurse r
  | e :: r => .emitR e r

/-- Result of one `ConvertImages::next` call: end of iteration, a panic
(the `unwrap` in the break arm), or a yielded event with the next state and
remaining input. -/
inductive CIRes
  | stop
  | panic
  | emit (e : PEvent) (st : CIState) (rest : List PEvent)
deriving DecidableEq, Repr

/-- The guarded break arm (typst.rs lines 421–435): after a standalone
image, a break followed by text opens a new paragraph; otherwise the next
event is pulled, buffered (`unwrap` panics on exhaustion) and the first
event is yielded. -/
def ciBreakArm (st : CIState) (brk : PEvent) (rest : List PEvent) : Option CIRes :=
  match rest with
  | (tx@(.ty (.Text _))) :: rest2 =>
    some (.emit (.ty (.Start .Paragraph))
      { st with in_paragraph := true, buffer := st.buffer ++ [tx] } rest2)
  | (tx@(.md (.Text _))) :: rest2 =>
    some (.emit (.ty (.Start .Paragraph))
      { st with in_paragraph := true, buffer := st.buffer ++ [tx] } rest2)
  | other :: rest2 =>
    match rest2 with
    | e2 :: rest3 => some (.emit other { st with buffer := st.buffer ++ [e2] } rest3)
    | [] => some .panic
  | [] => some .panic

/-- The text sub-arm of the Markdown-paragraph-end arm (typst.rs lines
532–540): buffer the Markdown paragraph end and the text, yield a new
paragraph start. -/
def ciMdParaEndText (st : CIState) (tx : PEvent) (rest2 : List PEvent) : Option CIRes :=
  some (.emit (.ty (.Start .Paragraph))
    { st with
        paragraph_closed_for_image := false
        in_paragraph := true
        buffer := st.buffer ++ [.md (.End .Paragraph), tx] } rest2)

/-- The Markdown-paragraph-end arm (typst.rs lines 436–547).  Both guarded
Typst-paragraph-end sub-arms end by returning `None` from `next` (typst.rs
lines 444, 514–524), which terminates the iteration; the buffer and flag
bookkeeping they perform beforehand is unobservable afterwards and is
collapsed into `stop`. -/
def ciMdParaEndArm (st : CIState) (rest : List PEvent) : Option CIRes :=
  match rest with
  | (.ty (.End .Paragraph)) :: rest2 =>
    if ¬ st.in_paragraph ∧ st.paragraph_closed_for_image then some .stop
    else if ¬ st.in_paragraph ∧ ¬ st.paragraph_closed_for_image then some .stop
    else
      some (.emit (.ty (.End .Paragraph))
        { st with buffer := st.buffer ++ [.md (.End .Paragraph)] } rest2)
  | (.ty (.Start .Paragraph)) :: rest2 =>
    some (.emit (.ty (.Start .Paragraph))
      { st with paragraph_closed_for_image := false, in_paragraph := true } rest2)
  | (tx@(.ty (.Text _))) :: rest2 => ciMdParaEndText st tx rest2
  | (tx@(.md (.Text _))) :: rest2 => ciMdParaEndText st tx rest2
  | other :: rest2 =>
    some (.emit other { st with buffer := st.buffer ++ [.md (.End .Paragraph)] } rest2)
  | [] => some .stop

/-- One `ConvertImages::next` call, with fuel for the `self.next()`
recursions (each of which has consumed at least one input event, so any
fuel of at least the input length suffices).  The arms follow the source
order; the two sub-arms of typst.rs lines 323–420 are unreachable (the
unguarded arm at line 270 precedes them) and the dead sub-cases of the
`in_image` arm at lines 560–585 (paragraph tags and the image end are
caught by earlier arms) are likewise omitted. -/
def ciNext : Nat → CIState → List PEvent → Option CIRes
  | 0, _, _ => none
  | fuel + 1, st, input =>
    match st.buffer with
    | e :: brest =>
      let st1 :=
        match e with
        | .ty (.Start (.Heading _ _ _)) => { st with in_heading := true }
        | .ty (.End (.Heading _ _ _)) => { st with in_heading := false }
        | _ => st
      some (.emit e { st1 with buffer := brest } input)
    | [] =>
      match input with
      | [] => some .stop
      | e :: rest =>
        match e with
        | .ty (.Start (.Heading l t b)) =>
          some (.emit (.ty (.Start (.Heading l t b))) { st with in_heading := true } rest)
        | .ty (.End (.Heading l t b)) =>
          some (.emit (.ty (.End (.Heading l t b))) { st with in_heading := false } rest)
        | .ty (.Start .Paragraph) =>
          if st.in_image then ciNext fuel st rest
          else
            let st0 := { st with paragraph_closed_for_image := false }
            match rest with
            | (.md (.Start (.Image url _))) :: rest2 =>
              match soleImgSkip rest2 with
              | none => some (.emit (imageCallEvent url) st0 [])
              | some rest3 =>
                match soleImgInner rest3 with
                | (some ev, rest4) =>
                  some (.emit (imageCallEvent url) { st0 with buffer := st0.buffer ++ [ev] } rest4)
                | (none, rest4) => some (.emit (imageCallEvent url) st0 rest4)
            | other :: rest2 =>
              some (.emit (.ty (.Start .Paragraph))
                { st0 with buffer := st0.buffer ++ [other], in_paragraph := true } rest2)
            | [] =>
              some (.emit (.ty (.Start .Paragraph)) { st0 with in_paragraph := true } [])
        | .ty (.End .Paragraph) =>
          some (.emit (.ty (.End .Paragraph)) { st with in_paragraph := false } rest)
        | .md (.Start (.Image url _)) =>
          let st1 := { st with in_image := true }
          if st.in_paragraph then
            some (.emit (.ty (.End .Paragraph))
              { st1 with
                  buffer := st1.buffer ++ [imageCallEvent url]
                  in_paragraph := false
                  paragraph_closed_for_image := true } rest)
          else some (.emit (imageCallEvent url) st1 rest)
        | .md (.End (.Image _ _)) =>
          let st1 := { st with in_image := false }
          match imgEndScan rest with
          | .stop => some .stop
          | .recurse r => ciNext fuel st1 r
          | .emitR ev r => some (.emit ev st1 r)
        | .md .SoftBreak =>
          if ¬ st.in_paragraph ∧ ¬ st.paragraph_closed_for_image then
            ciBreakArm st (.md .SoftBreak) rest
          else if st.in_image then ciNext fuel st rest
          else some (.emit (.md .SoftBreak) st rest)
        | .md .HardBreak =>
          if ¬ st.in_paragraph ∧ ¬ st.paragraph_closed_for_image then
            ciBreakArm st (.md .HardBreak) rest
          else if st.in_image then ciNext fuel st rest
          else some (.emit (.md .HardBreak) st rest)
        | .md (.End .Paragraph) => ciMdParaEndArm st rest
        | .md (.Text s) =>
          if st.in_image then ciNext fuel st rest
          else if st.in_heading then some (.emit (.md (.Text s)) st rest)
          else
            some (.emit (.ty (.Start .Paragraph))
              { st with
                  paragraph_closed_for_image := false
                  in_paragraph := true
                  buffer := st.buffer ++ [.md (.Text s)] } rest)
        | .ty (.Text s) =>
          if st.in_image then ciNext fuel st rest
          else if st.in_heading then some (.emit (.ty (.Text s)) st rest)
          else
            some (.emit (.ty (.Start .Paragraph))
              { st with
                  paragraph_closed_for_image := false
                  in_paragraph := true
                  buffer := st.buffer ++ [.ty (.Text s)] } rest)
        | otherE =>
          if st.in_image then ciNext fuel st rest
          else some (.emit otherE st rest)

/-- Drive `ConvertImages` to exhaustion, collecting the yielded events. -/
def ciRun : Nat → CIState → List PEvent → Option (List PEvent)
  | 0, _, _ => none
  | fuel + 1, st, input =>
    match ciNext (fuel + 1) st input with
    | none => none
    | some .stop => some []
    | some .panic => none
    | some (.emit e st' rest) => (ciRun fuel st' rest).map (fun l => e :: l)

/-- Keep only the Typst events, as the pipeline's `filter_map` does before
serialization. -/
def filterTypst : List PEvent → List Event
  | [] => []
  | (.ty e) :: r => e :: filterTypst r
  | (.md _) :: r => filterTypst r

/-- The image pipeline of the repository's tests: `ConvertImages`, then the
Typst filter, then the `TypstMarkup` serializer, concatenated. -/
def imagePipeline (fuel : Nat) (input : List PEvent) : Option Str :=
  match ciRun fuel ciInit input with
  | none => none
  | some evs => concatRun markupInit (filterTypst evs)

/-! ### The charwise characterization of `typst_escape` -/

/-- One single-character replacement stage, per character. -/
def escStep (c0 : Char) (r : Str) (x : Char) : Str := if x = c0 then r else [x]

/-- The per-character escape map exactly as the specification words it:
`'$' '#' '<' '>' '*' '`' '@'` get a leading backslash, `'_'` becomes a
space followed by `\_`, everything else is unchanged. -/
def escCharSpec (c : Char) : Str :=
  if c = '$' ∨ c = '#' ∨ c = '<' ∨ c = '>' ∨ c = '*' ∨ c = '`' ∨ c = '@' then ['\\', c]
  else if c = '_' then [' ', '\\', '_']
  else [c]

lemma map_singleton_flatten (s : Str) : (s.map (fun c => [c])).flatten = s := by
  induction s with
  | nil => rfl
  | cons c cs ih => simp [ih]

lemma isPrefixOf_singleton_cons (c0 c : Char) (cs : Str) :
    [c0].isPrefixOf (c :: cs) = (c0 == c) := by
  simp [List.isPrefixOf]

lemma replaceGo_single (c0 : Char) (r : Str) :
    ∀ (fuel : Nat) (s : Str), s.length ≤ fuel →
      replaceGo [c0] r fuel s = (s.map (escStep c0 r)).flatten := by
  intro fuel
  induction fuel with
  | zero =>
    intro s hs
    match s with
    | [] => rfl
    | c :: cs => simp at hs
  | succ fuel ih =>
    intro s hs
    match s with
    | [] => rfl
    | c :: cs =>
      rw [replaceGo]
      by_cases h : c0 = c
      · subst h
        rw [if_pos ⟨by simp, by simp [isPrefixOf_singleton_cons]⟩]
        rw [show ((c0 :: cs).drop [c0].length) = cs from rfl]
        rw [ih cs (by simpa using hs)]
        simp [escStep]
      · have hc : ¬ c = c0 := fun hh => h hh.symm
        rw [if_neg (by simp [isPrefixOf_singleton_cons, h])]
        rw [ih cs (by simpa using hs)]
        simp [escStep, hc]

lemma strReplace_single (s : Str) (c0 : Char) (r : Str) :
    strReplace s [c0] r = (s.map (escStep c0 r)).flatten :=
  replaceGo_single c0 r s.length s le_rfl

lemma flatten_map_flatten (g : Char → Str) (L : List Str) :
    ((L.flatten).map g).flatten = (L.map (fun s => (s.map g).flatten)).flatten := by
  induction L with
  | nil => rfl
  | cons s L ih =>
    simp only [List.flatten_cons, List.map_append, List.flatten_append, List.map_cons, ih]

lemma strReplace_single_flatten (f : Char → Str) (l : Str) (c0 : Char) (r : Str) :
    strReplace ((l.map f).flatten) [c0] r
      = (l.map (fun a => ((f a).map (escStep c0 r)).flatten)).flatten := by
  rw [strReplace_single, flatten_map_flatten, List.map_map]
  rfl

/-- `typst_escape` is the charwise map described by the specification. -/
theorem typst_escape_charwise (s : Str) :
    typst_escape s = (s.map escCharSpec).flatten := by
  have hs : s = (s.map (fun c => [c])).flatten := (map_singleton_flatten s).symm
  unfold typst_escape
  simp only [show ("$".data : Str) = ['$'] from rfl,
    show ("#".data : Str) = ['#'] from rfl,
    show ("<".data : Str) = ['<'] from rfl,
    show (">".data : Str) = ['>'] from rfl,
    show ("*".data : Str) = ['*'] from rfl,
    show ("_".data : Str) = ['_'] from rfl,
    show ("`".data : Str) = ['`'] from rfl,
    show ("@".data : Str) = ['@'] from rfl]
  conv_lhs =>
    rw [hs, strReplace_single_flatten, strReplace_single_flatten,
      strReplace_single_flatten, strReplace_single_flatten, strReplace_single_flatten,
      strReplace_single_flatten, strReplace_single_flatten, strReplace_single_flatten]
  apply congrArg List.flatten
  apply List.map_congr_left
  intro c _
  by_cases h1 : c = '$'
  · subst h1; decide
  by_cases h2 : c = '#'
  · subst h2; decide
  by_cases h3 : c = '<'
  · subst h3; decide
  by_cases h4 : c = '>'
  · subst h4; decide
  by_cases h5 : c = '*'
  · subst h5; decide
  by_cases h6 : c = '_'
  · subst h6; decide
  by_cases h7 : c = '`'
  · subst h7; decide
  by_cases h8 : c = '@'
  · subst h8; decide
  simp [escStep, escCharSpec, h1, h2, h3, h4, h5, h6, h7, h8]

/-! ### The specification-side `*`-escaping (previous-input-character form) -/

/-- The `*`-escaping as the specification words it: a `'*'` is replaced by
`\*` unless the character immediately preceding it in the input is a
backslash (never double-escaping). -/
def starEscapeSpecGo (prev : Option Char) : Str → Str
  | [] => []
  | c :: cs =>
    if c = '*' then
      if prev = some '\\' then '*' :: starEscapeSpecGo (some c) cs
      else '\\' :: '*' :: starEscapeSpecGo (some c) cs
    else c :: starEscapeSpecGo (some c) cs

def starEscapeSpec (s : Str) : Str := starEscapeSpecGo none s

lemma starEscapeGo_spec (s : Str) :
    ∀ acc : Str, starEscapeGo acc s = acc ++ starEscapeSpecGo acc.getLast? s := by
  induction s with
  | nil => intro acc; simp [starEscapeGo, starEscapeSpecGo]
  | cons c cs ih =>
    intro acc
    simp only [starEscapeGo, starEscapeSpecGo]
    by_cases hc : c = '*'
    · subst hc
      simp only [if_pos rfl]
      by_cases hb : acc.getLast? = some '\\'
      · rw [if_pos hb, if_pos hb, ih (acc ++ ['*']), List.getLast?_concat]
        simp
      · rw [if_neg hb, if_neg hb, ih (acc ++ ['\\', '*'])]
        rw [show acc ++ ['\\', '*'] = (acc ++ ['\\']) ++ ['*'] by simp, List.getLast?_concat]
        simp
    · rw [if_neg hc, if_neg hc, ih (acc ++ [c]), List.getLast?_concat]
      simp

/-- The accumulator-based escaping of the source and the
previous-input-character escaping of the specification agree. -/
theorem starEscape_eq_spec (s : Str) : starEscape s = starEscapeSpec s := by
  rw [starEscape, starEscapeSpec, starEscapeGo_spec s []]
  rfl

/-- The cell-content rewrite with the specification-side `*` rule; compared
with `cellEscape` (the source-side chain) below. -/
def cellEscapeSpec (content : Str) : Str :=
  rustTrim (starEscapeSpec (strReplace
    (strReplace (strReplace (strReplace content
      "<br>".data "\\\n".data)
      "<br/>".data "\\\n".data)
      "<br />".data "\\\n".data)
      "//".data "\\/\\/".data))

theorem cellEscape_eq_spec (content : Str) : cellEscape content = cellEscapeSpec content := by
  rw [cellEscape, cellEscapeSpec, starEscape_eq_spec]

/-! ### Run-collapsing characterization of `generate_label_id`

`generate_label_id` joins the non-empty `'-'`-separated pieces; the lemmas
below show this equals collapsing every maximal run of `'-'` into a single
`'-'` and trimming `'-'` from both ends. -/

def notDash (c : Char) : Bool := c ≠ '-'

/-- Collapse maximal `'-'` runs to a single `'-'` (the flag records whether
the previous kept character was part of a `'-'` run). -/
def collapseDashGo (prevDash : Bool) : Str → Str
  | [] => []
  | c :: cs =>
    if c = '-' then
      if prevDash then collapseDashGo true cs
      else '-' :: collapseDashGo true cs
    else c :: collapseDashGo false cs

def collapseDash (s : Str) : Str := collapseDashGo false s

/-- Drop the characters satisfying `p` from the tail end. -/
def dropTrailP (p : Char → Bool) (s : Str) : Str := (s.reverse.dropWhile p).reverse

lemma dropAround_eq (p : Char → Bool) (s : Str) :
    dropAround p s = dropTrailP p (s.dropWhile p) := rfl

lemma dropWhile_head_false (r : Char → Bool) :
    ∀ (l : Str) (c : Char) (cs : Str), l.dropWhile r = c :: cs → r c = false := by
  intro l
  induction l with
  | nil => intro c cs h; simp at h
  | cons a l ih =>
    intro c cs h
    rw [List.dropWhile_cons] at h
    by_cases ha : r a = true
    · exact ih c cs (by rwa [if_pos ha] at h)
    · rw [if_neg ha] at h
      cases h
      simpa using ha

lemma dropWhile_append_left (r : Char → Bool) (A B : Str) (h : A.dropWhile r ≠ []) :
    (A ++ B).dropWhile r = A.dropWhile r ++ B := by
  induction A with
  | nil => simp at h
  | cons a A ih =>
    by_cases ha : r a = true
    · rw [List.dropWhile_cons, if_pos ha] at h
      rw [List.cons_append, List.dropWhile_cons, if_pos ha, List.dropWhile_cons, if_pos ha]
      exact ih h
    · rw [List.cons_append, List.dropWhile_cons, if_neg ha, List.dropWhile_cons, if_neg ha,
        List.cons_append]

lemma dropWhile_append_all (r : Char → Bool) (A B : Str) (h : A.dropWhile r = []) :
    (A ++ B).dropWhile r = B.dropWhile r := by
  induction A with
  | nil => simp
  | cons a A ih =>
    rw [List.dropWhile_cons] at h
    by_cases ha : r a = true
    · rw [if_pos ha] at h
      rw [List.cons_append, List.dropWhile_cons, if_pos ha]
      exact ih h
    · rw [if_neg ha] at h
      simp at h

lemma dropTrailP_append_left (p : Char → Bool) (U W : Str) (h : dropTrailP p W ≠ []) :
    dropTrailP p (U ++ W) = U ++ dropTrailP p W := by
  unfold dropTrailP at h ⊢
  have h' : W.reverse.dropWhile p ≠ [] := by
    intro hx
    exact h (by rw [hx]; rfl)
  rw [List.reverse_append, dropWhile_append_left p W.reverse U.reverse h',
    List.reverse_append, List.reverse_reverse]

lemma dropTrailP_cons_neg (p : Char → Bool) (c : Char) (X : Str) (hc : p c = false) :
    dropTrailP p (c :: X) = c :: dropTrailP p X := by
  unfold dropTrailP
  rw [show (c :: X).reverse = X.reverse ++ [c] by simp]
  by_cases h : X.reverse.dropWhile p = []
  · rw [dropWhile_append_all _ _ _ h, h]
    simp [List.dropWhile_cons, hc]
  · rw [dropWhile_append_left _ _ _ h]
    simp

lemma dropTrailP_concat_pos (p : Char → Bool) (a : Char) (X : Str) (ha : p a = true) :
    dropTrailP p (X ++ [a]) = dropTrailP p X := by
  unfold dropTrailP
  rw [List.reverse_append]
  simp [List.dropWhile_cons, ha]

lemma dropWhile_eq_self_of_all (r : Char → Bool) (X : Str) (h : ∀ c ∈ X, r c = false) :
    X.dropWhile r = X := by
  cases X with
  | nil => rfl
  | cons c cs => rw [List.dropWhile_cons, if_neg (by simp [h c (by simp)])]

lemma dropTrailP_eq_self_of_all (p : Char → Bool) (X : Str) (h : ∀ c ∈ X, p c = false) :
    dropTrailP p X = X := by
  unfold dropTrailP
  rw [dropWhile_eq_self_of_all p X.reverse (by intro c hc; exact h c (by simpa using hc)),
    List.reverse_reverse]

lemma dropWhile_idem (r : Char → Bool) (l : Str) :
    (l.dropWhile r).dropWhile r = l.dropWhile r := by
  cases h : l.dropWhile r with
  | nil => rfl
  | cons c cs => rw [List.dropWhile_cons, if_neg (by simp [dropWhile_head_false r l c cs h])]

lemma dropTrailP_idem (p : Char → Bool) (l : Str) :
    dropTrailP p (dropTrailP p l) = dropTrailP p l := by
  unfold dropTrailP
  rw [List.reverse_reverse, dropWhile_idem]

lemma dropTrailP_prefix (p : Char → Bool) (Y : Str) : dropTrailP p Y <+: Y := by
  unfold dropTrailP
  have h : Y.reverse.dropWhile p <:+ Y.reverse := List.dropWhile_suffix p
  have h2 := List.reverse_prefix.mpr h
  rwa [List.reverse_reverse] at h2

lemma dropWhile_length_le (r : Char → Bool) (l : Str) :
    (l.dropWhile r).length ≤ l.length := by
  induction l with
  | nil => simp
  | cons a l ih =>
    rw [List.dropWhile_cons]
    by_cases h : r a = true
    · rw [if_pos h]
      exact Nat.le_succ_of_le ih
    · rw [if_neg h]

lemma dropWhile_fix_head (r : Char → Bool) (Y : Str) (c : Char) (cs : Str)
    (hY : Y.dropWhile r = Y) (hc : Y = c :: cs) : r c = false := by
  subst hc
  by_cases h : r c = true
  · rw [List.dropWhile_cons, if_pos h] at hY
    have hlen := congrArg List.length hY
    have hle := dropWhile_length_le r cs
    simp at hlen
    omega
  · simpa using h

lemma collapseGo_false_cons_dash (cs : Str) :
    collapseDashGo false ('-' :: cs) = '-' :: collapseDashGo true cs := by
  simp [collapseDashGo]

lemma collapseGo_true_cons_dash (cs : Str) :
    collapseDashGo true ('-' :: cs) = collapseDashGo true cs := by
  simp [collapseDashGo]

lemma collapseGo_cons_nondash (b : Bool) (c : Char) (cs : Str) (hc : ¬ c = '-') :
    collapseDashGo b (c :: cs) = c :: collapseDashGo false cs := by
  simp [collapseDashGo, hc]

lemma collapseGo_true_eq (l : Str) :
    collapseDashGo true l = collapseDashGo false (l.dropWhile isDash) := by
  induction l with
  | nil => rfl
  | cons c cs ih =>
    by_cases hc : c = '-'
    · subst hc
      rw [collapseGo_true_cons_dash, ih, List.dropWhile_cons, if_pos (by simp [isDash])]
    · rw [collapseGo_cons_nondash true c cs hc, List.dropWhile_cons,
        if_neg (by simp [isDash, hc]), collapseGo_cons_nondash false c cs hc]

lemma dropWhile_collapse_flag (cs : Str) :
    (collapseDashGo false cs).dropWhile isDash = (collapseDashGo true cs).dropWhile isDash := by
  cases cs with
  | nil => rfl
  | cons c cs =>
    by_cases hc : c = '-'
    · subst hc
      rw [collapseGo_false_cons_dash, collapseGo_true_cons_dash, List.dropWhile_cons,
        if_pos (by simp [isDash])]
    · rw [collapseGo_cons_nondash false c cs hc, collapseGo_cons_nondash true c cs hc]

lemma collapse_dropWhile_self (l : Str) :
    (collapseDashGo false (l.dropWhile isDash)).dropWhile isDash
      = collapseDashGo false (l.dropWhile isDash) := by
  cases h : l.dropWhile isDash with
  | nil => rfl
  | cons c cs =>
    have hc : isDash c = false := dropWhile_head_false isDash l c cs h
    have hc' : ¬ c = '-' := by simpa [isDash] using hc
    rw [collapseGo_cons_nondash false c cs hc', List.dropWhile_cons, if_neg (by simp [hc])]

lemma dropWhile_collapse (l : Str) :
    (collapseDashGo false l).dropWhile isDash = collapseDashGo false (l.dropWhile isDash) := by
  cases l with
  | nil => rfl
  | cons c cs =>
    by_cases hc : c = '-'
    · subst hc
      rw [collapseGo_false_cons_dash, List.dropWhile_cons, if_pos (by simp [isDash]),
        List.dropWhile_cons, if_pos (by simp [isDash]),
        collapseGo_true_eq, collapse_dropWhile_self]
    · rw [collapseGo_cons_nondash false c cs hc, List.dropWhile_cons,
        if_neg (by simp [isDash, hc]), List.dropWhile_cons, if_neg (by simp [isDash, hc]),
        collapseGo_cons_nondash false c cs hc]

lemma trimDash_collapseDash (l : Str) :
    trimDash (collapseDash l) = dropTrailP isDash (collapseDashGo true l) := by
  rw [trimDash, dropAround_eq, collapseDash, dropWhile_collapse, ← collapseGo_true_eq]

lemma trimDash_collapse_cons_dash (cs : Str) :
    trimDash (collapseDash ('-' :: cs)) = trimDash (collapseDash cs) := by
  rw [trimDash, trimDash, dropAround_eq, dropAround_eq, collapseDash, collapseDash,
    collapseGo_false_cons_dash, List.dropWhile_cons, if_pos (by simp [isDash]),
    ← dropWhile_collapse_flag]

lemma splitDash_cons_dash (cs : Str) : splitDash ('-' :: cs) = [] :: splitDash cs := by
  rw [splitDash]
  rw [if_pos rfl]

lemma splitDash_decomp (cs : Str) :
    splitDash cs
      = cs.takeWhile notDash ::
        (match cs.dropWhile notDash with
         | [] => ([] : List Str)
         | _ :: ds => splitDash ds) := by
  induction cs with
  | nil => rfl
  | cons c cs ih =>
    by_cases hc : c = '-'
    · subst hc
      have hnd : ¬ notDash '-' = true := by simp [notDash]
      rw [splitDash_cons_dash, List.takeWhile_cons, if_neg hnd, List.dropWhile_cons, if_neg hnd]
    · have hnd : notDash c = true := by simp [notDash, hc]
      rw [show splitDash (c :: cs)
          = (match splitDash cs with
             | [] => [[c]]
             | p :: ps => (c :: p) :: ps) from by rw [splitDash]; rw [if_neg hc]]
      rw [List.takeWhile_cons, if_pos hnd, List.dropWhile_cons, if_pos hnd, ih]

lemma filter_splitDash_nil :
    ∀ ds : Str, (splitDash ds).filter (fun q => q ≠ []) = [] → ∀ c ∈ ds, c = '-' := by
  intro ds
  induction ds with
  | nil =>
    intro _ c hc
    simp at hc
  | cons c cs ih =>
    intro h d hd
    by_cases hc : c = '-'
    · subst hc
      rw [splitDash_cons_dash, List.filter_cons] at h
      rw [if_neg (by simp)] at h
      rcases List.mem_cons.mp hd with h1 | h1
      · exact h1
      · exact ih h d h1
    · exfalso
      have hnd : notDash c = true := by simp [notDash, hc]
      rw [splitDash_decomp (c :: cs), List.takeWhile_cons, if_pos hnd, List.filter_cons,
        if_pos (by simp)] at h
      simp at h

lemma collapse_true_all_dash :
    ∀ ds : Str, (∀ c ∈ ds, c = '-') → collapseDashGo true ds = [] := by
  intro ds
  induction ds with
  | nil => intro _; rfl
  | cons c cs ih =>
    intro h
    have hc : c = '-' := h c (by simp)
    subst hc
    rw [collapseGo_true_cons_dash]
    exact ih (fun x hx => h x (by simp [hx]))

lemma intercalate_single (sep a : Str) : List.intercalate sep [a] = a := by
  simp [List.intercalate]

lemma intercalate_cons2 (sep a b : Str) (l : List Str) :
    List.intercalate sep (a :: b :: l) = a ++ sep ++ List.intercalate sep (b :: l) := by
  show (a :: sep :: List.intersperse sep (b :: l)).flatten = _
  rw [List.flatten_cons, List.flatten_cons, List.append_assoc]
  rfl

lemma intercalate_ne_nil (sep q : Str) (qs : List Str) (hq : q ≠ []) :
    List.intercalate sep (q :: qs) ≠ [] := by
  cases qs with
  | nil =>
    rw [intercalate_single]
    exact hq
  | cons b l =>
    rw [intercalate_cons2]
    simp [hq]

lemma collapse_append_dashfree (A X : Str) (h : ∀ x ∈ A, isDash x = false) :
    collapseDashGo false (A ++ X) = A ++ collapseDashGo false X := by
  induction A with
  | nil => rfl
  | cons a A ih =>
    have ha : ¬ a = '-' := by
      have := h a (by simp)
      simpa [isDash] using this
    rw [List.cons_append, collapseGo_cons_nondash false a (A ++ X) ha,
      ih (fun x hx => h x (by simp [hx])), List.cons_append]

lemma collapse_eq_self_dashfree (X : Str) (h : ∀ x ∈ X, isDash x = false) :
    collapseDashGo false X = X := by
  have h2 := collapse_append_dashfree X [] h
  rw [List.append_nil] at h2
  rw [h2, show collapseDashGo false ([] : Str) = [] from rfl, List.append_nil]

/-- Joining the non-empty `'-'`-separated pieces with `'-'` equals
collapsing `'-'`-runs and trimming `'-'` at both ends. -/
theorem splitJoin_eq_collapse_fuel :
    ∀ (n : Nat) (l : Str), l.length ≤ n →
      List.intercalate "-".data ((splitDash l).filter (fun q => q ≠ []))
        = trimDash (collapseDash l) := by
  intro n
  induction n with
  | zero =>
    intro l hl
    have hnil : l = [] := List.length_eq_zero.mp (Nat.le_zero.mp hl)
    subst hnil
    rfl
  | succ n ih =>
    intro l hl
    cases l with
    | nil => rfl
    | cons c cs =>
      by_cases hc : c = '-'
      · subst hc
        rw [splitDash_cons_dash, List.filter_cons, if_neg (by simp),
          ih cs (by simpa using hl), trimDash_collapse_cons_dash]
      · have hnd : notDash c = true := by simp [notDash, hc]
        have hcd : isDash c = false := by simp [isDash, hc]
        have hdec := splitDash_decomp (c :: cs)
        rw [List.takeWhile_cons, if_pos hnd, List.dropWhile_cons, if_pos hnd] at hdec
        have hA1 : ∀ x ∈ cs.takeWhile notDash, isDash x = false := by
          intro x hx
          have hx' := List.mem_takeWhile_imp hx
          simp only [notDash] at hx'
          simp only [isDash]
          simpa using hx'
        have hcsplit : cs.takeWhile notDash ++ cs.dropWhile notDash = cs :=
          List.takeWhile_append_dropWhile notDash cs
        have hclen : cs.length ≤ n := by simpa using hl
        rw [trimDash, dropAround_eq, collapseDash,
          collapseGo_cons_nondash false c cs hc, List.dropWhile_cons, if_neg (by simp [hcd])]
        cases hB : cs.dropWhile notDash with
        | nil =>
          have hcs : cs = cs.takeWhile notDash := by
            conv_lhs => rw [← hcsplit, hB]
            rw [List.append_nil]
          have hcsfree : ∀ x ∈ cs, isDash x = false := by
            intro x hx
            rw [hcs] at hx
            exact hA1 x hx
          rw [hB] at hdec
          have hdec2 : splitDash (c :: cs) = [c :: cs.takeWhile notDash] := hdec
          rw [hdec2, List.filter_cons, if_pos (by simp), List.filter_nil, intercalate_single,
            collapse_eq_self_dashfree cs hcsfree, dropTrailP_cons_neg _ _ _ hcd,
            dropTrailP_eq_self_of_all _ _ hcsfree, ← hcs]
        | cons b ds =>
          have hb : notDash b = false := dropWhile_head_false notDash cs b ds hB
          have hbd : b = '-' := by
            by_contra hne
            simp [notDash, hne] at hb
          subst hbd
          rw [hB] at hdec hcsplit
          have hdec2 : splitDash (c :: cs)
              = (c :: cs.takeWhile notDash) :: splitDash ds := hdec
          have hlds : ds.length ≤ n := by
            have h1 : (cs.dropWhile notDash).length ≤ cs.length := dropWhile_length_le _ _
            rw [hB] at h1
            simp at h1
            omega
          have ihds := ih ds hlds
          have hcoll2 : collapseDashGo false cs
              = cs.takeWhile notDash ++ '-' :: collapseDashGo true ds := by
            conv_lhs => rw [← hcsplit]
            rw [collapse_append_dashfree _ _ hA1, collapseGo_false_cons_dash]
          rw [hdec2, List.filter_cons, if_pos (by simp), hcoll2]
          by_cases hF : (splitDash ds).filter (fun q => q ≠ []) = []
          · have hall := filter_splitDash_nil ds hF
            have hz : collapseDashGo true ds = [] := collapse_true_all_dash ds hall
            rw [hF, intercalate_single, hz]
            rw [show c :: (cs.takeWhile notDash ++ ('-' :: ([] : Str)))
              = (c :: cs.takeWhile notDash) ++ ['-'] from by simp]
            rw [dropTrailP_concat_pos _ _ _ (by simp [isDash])]
            rw [dropTrailP_eq_self_of_all _ _ (by
              intro x hx
              rcases List.mem_cons.mp hx with h1 | h1
              · subst h1
                exact hcd
              · exact hA1 x h1)]
          · have hT : List.intercalate "-".data ((splitDash ds).filter (fun q => q ≠ []))
                = dropTrailP isDash (collapseDashGo true ds) := by
              rw [ihds, trimDash_collapseDash]
            have hTne : dropTrailP isDash (collapseDashGo true ds) ≠ [] := by
              rw [← hT]
              cases hFc : (splitDash ds).filter (fun q => q ≠ []) with
              | nil => exact absurd hFc hF
              | cons q qs =>
                have hqmem : q ∈ (splitDash ds).filter (fun q => q ≠ []) := by
                  rw [hFc]
                  exact List.mem_cons_self q qs
                have hq : q ≠ [] := by
                  have := (List.mem_filter.mp hqmem).2
                  simpa using this
                exact intercalate_ne_nil _ q qs hq
            rw [show c :: (cs.takeWhile notDash ++ '-' :: collapseDashGo true ds)
              = ((c :: cs.takeWhile notDash) ++ ['-']) ++ collapseDashGo true ds from by simp]
            rw [dropTrailP_append_left _ _ _ hTne, ← hT]
            cases hFc : (splitDash ds).filter (fun q => q ≠ []) with
            | nil => exact absurd hFc hF
            | cons q qs =>
              rw [intercalate_cons2]

lemma trimDash_trim (m : Str) :
    trimDash (trimDash (collapseDash m)) = trimDash (collapseDash m) := by
  have hY : trimDash (collapseDash m)
      = dropTrailP isDash (collapseDashGo false (m.dropWhile isDash)) := by
    rw [trimDash, dropAround_eq, collapseDash, dropWhile_collapse]
  have hYfix : (collapseDashGo false (m.dropWhile isDash)).dropWhile isDash
      = collapseDashGo false (m.dropWhile isDash) := collapse_dropWhile_self m
  have hZfix : (dropTrailP isDash (collapseDashGo false (m.dropWhile isDash))).dropWhile isDash
      = dropTrailP isDash (collapseDashGo false (m.dropWhile isDash)) := by
    cases hZ : dropTrailP isDash (collapseDashGo false (m.dropWhile isDash)) with
    | nil => rfl
    | cons c cs =>
      have hpre := dropTrailP_prefix isDash (collapseDashGo false (m.dropWhile isDash))
      rw [hZ] at hpre
      obtain ⟨t, ht⟩ := hpre
      have hc : isDash c = false := by
        apply dropWhile_fix_head isDash _ c (cs ++ t) hYfix
        rw [← ht]
        simp
      rw [List.dropWhile_cons, if_neg (by simp [hc])]
  rw [hY, trimDash, dropAround_eq, hZfix, dropTrailP_idem]

/-- `generate_label_id` as the specification-style description: map the
characters, collapse every maximal run of `'-'` into one `'-'`, trim `'-'`
from both ends. -/
theorem generate_label_id_collapse (s : Str) :
    generate_label_id s = trimDash (collapseDash ((s.map labelChar).flatten)) := by
  rw [generate_label_id,
    splitJoin_eq_collapse_fuel ((s.map labelChar).flatten).length _ le_rfl, trimDash_trim]

/-! ### The label-map invariant (claim C2)

Every entry of the serializer's label map sends a heading text to its
generated identifier; the step function preserves this, and under it an
internal link target resolves to the same label whether or not the heading
has been serialized yet. -/

def labelInv (st : MarkupState) : Prop :=
  ∀ kv ∈ st.label_map, kv.2 = generate_label_id kv.1

lemma redirectOut_label (st : MarkupState) (f : Str) :
    (redirectOut st f).2.label_map = st.label_map := by
  cases h : st.cell_buffer with
  | some cb => simp [redirectOut, h]
  | none =>
    cases h2 : st.row_buffer with
    | some rb => simp [redirectOut, h, h2]
    | none => simp [redirectOut, h, h2]

lemma redirectEndOut_label (st : MarkupState) (x : Tag) (f : Str) :
    (redirectEndOut st x f).2.label_map = st.label_map := by
  cases h : st.cell_buffer with
  | some cb => simp [redirectEndOut, h]
  | none =>
    cases h2 : st.row_buffer with
    | some rb =>
      by_cases h3 : isTableRowish x = true <;> simp [redirectEndOut, h, h2, h3]
    | none => simp [redirectEndOut, h, h2]

lemma rowAppendCell_label (st : MarkupState) (f : Str) :
    (rowAppendCell st f).label_map = st.label_map := by
  cases h : st.row_buffer with
  | some rb => simp [rowAppendCell, h]
  | none => simp [rowAppendCell, h]

lemma startArm_label (st : MarkupState) (x : Tag) (r : Option Str) (st1 : MarkupState)
    (h : startArm st x = some (r, st1)) : st1.label_map = st.label_map := by
  cases x <;> unfold startArm at h <;> repeat' split at h
  all_goals simp only [Option.some.injEq, Prod.mk.injEq, reduceCtorEq] at h
  all_goals first
    | exact h.elim
    | (obtain ⟨h1, h2⟩ := h; subst h2; rfl)

lemma endArm_label (st : MarkupState) (x : Tag) :
    (endArm st x).2.label_map = st.label_map ∨
      ∃ t, st.heading_text_buffer = some t ∧
        (endArm st x).2.label_map = (t, generate_label_id t) :: st.label_map := by
  cases x with
  | Heading n a b =>
    cases h : st.heading_text_buffer with
    | some t =>
      right
      exact ⟨t, rfl, by simp [endArm, h]⟩
    | none =>
      left
      simp [endArm, h]
  | TableHead =>
    left
    cases h : st.row_buffer with
    | some rb => simp [endArm, h]
    | none => simp [endArm, h]
  | TableRow =>
    left
    cases h : st.row_buffer with
    | some rb => simp [endArm, h]
    | none => simp [endArm, h]
  | TableCell =>
    left
    cases h : st.cell_buffer with
    | some content => simp [endArm, h, rowAppendCell_label]
    | none => simp [endArm, h, rowAppendCell_label]
  | Quote ty q a =>
    left
    cases ty <;> simp [endArm]
  | _ => left; simp [endArm]

lemma pair_snd_eq {α β : Type _} {p : α × β} {a : α} {b : β} (h : p = (a, b)) : b = p.2 := by
  rw [h]

lemma markupStep_label (st : MarkupState) (e : Event) (f : Str) (st' : MarkupState)
    (h : markupStep st e = some (f, st')) :
    st'.label_map = st.label_map ∨
      ∃ t, st'.label_map = (t, generate_label_id t) :: st.label_map := by
  cases e with
  | Start x =>
    simp only [markupStep] at h
    split at h
    · exact absurd h (by simp)
    · rename_i ret st1 hs
      left
      have hl := startArm_label st x ret st1 hs
      split at h
      · simp only [Option.some.injEq] at h
        rw [pair_snd_eq h]
        exact hl
      · simp only [Option.some.injEq] at h
        rw [pair_snd_eq h, redirectOut_label]
        exact hl
  | End x =>
    simp only [markupStep] at h
    split at h
    · simp only [Option.some.injEq] at h
      left
      rw [pair_snd_eq h]
    · split at h
      · exact absurd h (by simp)
      · split at h
        · simp only [Option.some.injEq] at h
          rcases endArm_label st x with he | ⟨tt, hbuf, he⟩
          · left
            rw [pair_snd_eq h, redirectEndOut_label]
            exact he
          · right
            refine ⟨tt, ?_⟩
            rw [pair_snd_eq h, redirectEndOut_label]
            exact he
        · exact absurd h (by simp)
  | Raw x =>
    simp only [markupStep, Option.some.injEq] at h
    left
    rw [pair_snd_eq h, redirectOut_label]
  | Text x =>
    simp only [markupStep, Option.some.injEq] at h
    left
    rw [pair_snd_eq h, redirectOut_label]
    cases hb : st.heading_text_buffer <;> simp [hb]
  | Code x =>
    simp only [markupStep] at h
    left
    split at h <;> simp only [Option.some.injEq] at h <;> rw [pair_snd_eq h]
  | FunctionCall v fn args =>
    simp only [markupStep, Option.some.injEq] at h
    left
    rw [pair_snd_eq h]
    split
    · split <;> rfl
    · rfl
  | Linebreak =>
    simp only [markupStep, Option.some.injEq] at h
    left
    rw [pair_snd_eq h]
  | Parbreak =>
    simp only [markupStep, Option.some.injEq] at h
    left
    rw [pair_snd_eq h]
  | PageBreak =>
    simp only [markupStep, Option.some.injEq] at h
    left
    rw [pair_snd_eq h]
  | Line a b c d ee =>
    simp only [markupStep, Option.some.injEq] at h
    left
    rw [pair_snd_eq h]
  | Let a b =>
    simp only [markupStep, Option.some.injEq] at h
    left
    rw [pair_snd_eq h]
  | DocumentFunctionCall args =>
    simp only [markupStep, Option.some.injEq] at h
    left
    rw [pair_snd_eq h]
  | Set a b c =>
    simp only [markupStep, Option.some.injEq] at h
    left
    rw [pair_snd_eq h]
  | DocumentSet a b =>
    simp only [markupStep, Option.some.injEq] at h
    left
    rw [pair_snd_eq h]

/-- The serializer step preserves the label-map invariant. -/
theorem markupStep_labelInv (st : MarkupState) (e : Event) (f : Str) (st' : MarkupState)
    (h : markupStep st e = some (f, st')) (hinv : labelInv st) : labelInv st' := by
  rcases markupStep_label st e f st' h with he | ⟨t, he⟩
  · intro kv hkv
    exact hinv kv (by rwa [he] at hkv)
  · intro kv hkv
    rw [he] at hkv
    rcases List.mem_cons.mp hkv with h1 | h1
    · rw [h1]
    · exact hinv kv h1

lemma mapGet_inv (m : List (Str × Str)) (hinv : ∀ kv ∈ m, kv.2 = generate_label_id kv.1)
    (k v : Str) (h : mapGet m k = some v) : v = generate_label_id k := by
  rw [mapGet] at h
  cases hf : m.find? (fun p => p.1 == k) with
  | none =>
    rw [hf] at h
    simp at h
  | some kv =>
    rw [hf] at h
    simp at h
    have hmem := List.mem_of_find?_eq_some hf
    have hpred := List.find?_some hf
    have hk : kv.1 = k := by simpa using hpred
    rw [← h, hinv kv hmem, hk]

/-- Under the label-map invariant the link target `#My Heading` resolves to
the label `<my-heading>` whether or not a map entry exists. -/
lemma link_my_heading (m : List (Str × Str))
    (hinv : ∀ kv ∈ m, kv.2 = generate_label_id kv.1) :
    process_link_url_impl "#My Heading".data (some m) = "<my-heading>".data := by
  have hgen : generate_label_id "My Heading".data = "my-heading".data := by decide
  have hgen2 : generate_label_id "my-heading".data = "my-heading".data := by decide
  simp only [process_link_url_impl]
  rw [if_pos (show ("#My Heading".data : Str).head? = some '#' from rfl)]
  rw [show (("#My Heading".data : Str).drop 1) = "My Heading".data from rfl]
  cases hg : mapGet m "My Heading".data with
  | some label =>
    simp only [hg]
    rw [mapGet_inv m hinv _ _ hg, hgen]
    rfl
  | none =>
    simp only [hg, hgen]
    cases hg2 : mapGet m "my-heading".data with
    | some existing =>
      simp only [hg2]
      rw [mapGet_inv m hinv _ _ hg2, hgen2]
      rfl
    | none =>
      simp only [hg2]
      rfl

/-! ### Buffer non-interference (claim C1)

While a table cell is being accumulated (cell buffer and row buffer both
present), the fragment the serializer yields for any event other than the
row's end is independent of the buffered content: buffered cell content can
only reach the output through the row-end fragment (or the end-of-stream
flush). -/

/-- The fragment component of one serializer step. -/
def stepFrag (st : MarkupState) (e : Event) : Option Str :=
  (markupStep st e).map (fun p => p.1)

/-- The event that closes the enclosing row (`TableRow` or `TableHead`). -/
def isRowEnd (e : Event) : Bool :=
  match e with
  | .End .TableRow => true
  | .End .TableHead => true
  | _ => false

lemma startArm_frag (st1 st2 : MarkupState) (x : Tag)
    (hq : st1.tag_queue = st2.tag_queue) (hd : st1.codeblock_depth = st2.codeblock_depth)
    (hm : st1.label_map = st2.label_map) :
    (startArm st1 x).map (fun p => p.1) = (startArm st2 x).map (fun p => p.1) := by
  cases x with
  | Show ty sel set func =>
    cases ty with
    | showSet =>
      cases set with
      | some s =>
        obtain ⟨e1, k1, v1⟩ := s
        simp [startArm]
      | none => simp [startArm]
    | function =>
      cases func with
      | some fb => simp [startArm]
      | none => simp [startArm]
  | Item =>
    rw [show startArm st1 Tag.Item
        = (match st1.tag_queue.head? with
           | some Tag.BulletList => some (some "- ".data, st1)
           | some Tag.NumberedList => some (some "+ ".data, st1)
           | some _ => none
           | none => none) from rfl,
      show startArm st2 Tag.Item
        = (match st2.tag_queue.head? with
           | some Tag.BulletList => some (some "- ".data, st2)
           | some Tag.NumberedList => some (some "+ ".data, st2)
           | some _ => none
           | none => none) from rfl, hq]
    cases st2.tag_queue.head? with
    | none => rfl
    | some t => cases t <;> rfl
  | Quote ty quotes attribution =>
    cases attribution <;> simp [startArm]
  | CodeBlock fence disp => simp [startArm, hd]
  | Link ty url => simp [startArm, hm]
  | _ => simp [startArm, hq, hd, hm]

lemma startArm_cell (st : MarkupState) (x : Tag) (ret : Option Str) (st1 : MarkupState)
    (hs : startArm st x = some (ret, st1)) (cb : Str) (hc : st.cell_buffer = some cb) :
    ∃ cb', st1.cell_buffer = some cb' := by
  cases x <;> unfold startArm at hs <;> repeat' split at hs
  all_goals simp only [Option.some.injEq, Prod.mk.injEq, reduceCtorEq] at hs
  all_goals first
    | exact hs.elim
    | (obtain ⟨h1, h2⟩ := hs; subst h2; exact ⟨cb, hc⟩)
    | (obtain ⟨h1, h2⟩ := hs; subst h2; exact ⟨[], rfl⟩)

lemma map_const_of_map_eq {α β γ : Type _} (o1 o2 : Option α) (f : α → β) (c : γ)
    (h : o1.map f = o2.map f) :
    (o1.map fun _ => c) = (o2.map fun _ => c) := by
  cases o1 <;> cases o2 <;> simp_all

/-- With a cell buffer active, a `Start` fragment is empty (or the step
panics) regardless of the buffers. -/
lemma stepFrag_start_cell (st : MarkupState) (x : Tag) (cb : Str)
    (hc : st.cell_buffer = some cb) :
    stepFrag st (.Start x) = (startArm st x).map (fun _ => ([] : Str)) := by
  rw [stepFrag]
  simp only [markupStep]
  cases hs : startArm st x with
  | none => rfl
  | some pair =>
    obtain ⟨ret, st1⟩ := pair
    obtain ⟨cb', hc1⟩ := startArm_cell st x ret st1 hs cb hc
    cases ret with
    | none => rfl
    | some r =>
      have hred : (redirectOut { st1 with tag_queue := x :: st1.tag_queue } r).1 = [] := by
        simp [redirectOut, hc1]
      simp [hred]

lemma rowAppendCell_tq (st : MarkupState) (f : Str) :
    (rowAppendCell st f).tag_queue = st.tag_queue := by
  cases h : st.row_buffer with
  | some rb => simp [rowAppendCell, h]
  | none => simp [rowAppendCell, h]

lemma rowAppendCell_cell (st : MarkupState) (f : Str) :
    (rowAppendCell st f).cell_buffer = st.cell_buffer := by
  cases h : st.row_buffer with
  | some rb => simp [rowAppendCell, h]
  | none => simp [rowAppendCell, h]

lemma endArm_tq (st : MarkupState) (x : Tag) : (endArm st x).2.tag_queue = st.tag_queue := by
  cases x <;> unfold endArm <;> repeat' split
  all_goals first
    | rfl
    | rw [rowAppendCell_tq]

lemma endArm_cell (st : MarkupState) (x : Tag) :
    (endArm st x).2.cell_buffer = st.cell_buffer ∨
      (x = Tag.TableCell ∧ (endArm st x).2.cell_buffer = none) := by
  cases x with
  | TableCell =>
    right
    refine ⟨rfl, ?_⟩
    cases h : st.cell_buffer with
    | some content => simp [endArm, h, rowAppendCell_cell]
    | none => simp [endArm, h, rowAppendCell_cell]
  | Heading n a b =>
    left
    cases h : st.heading_text_buffer <;> simp [endArm, h]
  | TableHead =>
    left
    cases h : st.row_buffer <;> simp [endArm, h]
  | TableRow =>
    left
    cases h : st.row_buffer <;> simp [endArm, h]
  | Quote ty q a =>
    left
    cases ty <;> simp [endArm]
  | _ =>
    left
    simp [endArm]

lemma endArm_frag_tablecell (st : MarkupState) : (endArm st Tag.TableCell).1 = [] := by
  cases h : st.cell_buffer with
  | some content => simp [endArm, h]
  | none => simp [endArm, h]

lemma redirectEndOut_frag_cellsome (st : MarkupState) (x : Tag) (f : Str) (cb : Str)
    (hc : st.cell_buffer = some cb) : (redirectEndOut st x f).1 = [] := by
  simp [redirectEndOut, hc]

/-- With a cell buffer active, an `End` fragment is empty, or the step
panics on a tag-stack mismatch; either way it is determined by the tag
stack and the paragraph flag only. -/
lemma stepFrag_end_cell (st : MarkupState) (x : Tag) (cb : Str)
    (hc : st.cell_buffer = some cb) :
    stepFrag st (.End x)
      = (if x = Tag.Paragraph ∧ st.paragraph_closed_for_image then some ([] : Str)
         else
           match st.tag_queue with
           | [] => none
           | t :: _ => if t = x then some ([] : Str) else none) := by
  rw [stepFrag]
  simp only [markupStep]
  by_cases hP : x = Tag.Paragraph ∧ st.paragraph_closed_for_image
  · rw [if_pos hP, if_pos hP]
    rfl
  · rw [if_neg hP, if_neg hP]
    rw [endArm_tq]
    cases htq : st.tag_queue with
    | nil => rfl
    | cons t rest =>
      have hfrag : (redirectEndOut { (endArm st x).2 with tag_queue := rest } x
          (endArm st x).1).1 = [] := by
        rcases endArm_cell st x with hcell | ⟨hxx, hcell⟩
        · refine redirectEndOut_frag_cellsome _ x _ cb ?_
          show (endArm st x).2.cell_buffer = some cb
          rw [hcell, hc]
        · subst hxx
          simp [redirectEndOut, hcell, isTableRowish, endArm_frag_tablecell]
      by_cases htx : t = x
      · simp [htx, hfrag]
      · simp [htx]

/-- While a cell (and its row) buffer is active, the fragment yielded for
any event other than the enclosing row's end is independent of the
contents of both buffers. -/
theorem stepFrag_buffer_independent (st : MarkupState) (b b' r r' : Str) (e : Event)
    (he : isRowEnd e = false) :
    stepFrag { st with cell_buffer := some b, row_buffer := some r } e
      = stepFrag { st with cell_buffer := some b', row_buffer := some r' } e := by
  cases e with
  | Start x =>
    rw [stepFrag_start_cell _ x b rfl, stepFrag_start_cell _ x b' rfl]
    exact map_const_of_map_eq _ _ _ _ (startArm_frag _ _ x rfl rfl rfl)
  | End x =>
    rw [stepFrag_end_cell _ x b rfl, stepFrag_end_cell _ x b' rfl]
  | Raw x => rfl
  | Text x =>
    dsimp only [stepFrag, markupStep]
    cases hb : st.heading_text_buffer <;> rfl
  | Code x => rfl
  | Linebreak => rfl
  | Parbreak => rfl
  | PageBreak => rfl
  | Line a b c d ee => rfl
  | Let a b => rfl
  | FunctionCall v fn args =>
    dsimp only [stepFrag, markupStep]
    cases htq : st.tag_queue with
    | nil => rfl
    | cons t rest =>
      cases t with
      | Paragraph => by_cases hf : fn = "image".data <;> simp [hf]
      | _ => rfl
  | DocumentFunctionCall args => rfl
  | Set a b c => rfl
  | DocumentSet a b => rfl

/-! ### Claim-side definitions -/

/-- The heading-identifier transform exactly as the specification claims
it: case-fold, collapse every maximal run of non-alphanumeric characters
into a single `'-'`, trim separators, preserve non-ASCII characters. -/
def claimLabelChar (c : Char) : Str :=
  if c.toNat ≥ 128 then [c]
  else if c.isAlphanum then rustToLower c
  else ['-']

def claimLabelId (s : Str) : Str :=
  trimDash (collapseDash ((s.map claimLabelChar).flatten))

/-- A converted paragraph whose sole content is one image (the event
shape `ConvertParagraphs` + `ConvertText` produce for `![alt](p)`). -/
def soleShape (p alt title : Str) : List PEvent :=
  [.ty (.Start .Paragraph), .md (.Start (.Image p title)), .ty (.Text alt),
   .md (.End (.Image p title)), .ty (.End .Paragraph)]

/-- A converted paragraph with prose preceding the image (the event shape
for `prose ![alt](p)`). -/
def proseShape (prose p alt title : Str) : List PEvent :=
  [.ty (.Start .Paragraph), .ty (.Text prose), .md (.Start (.Image p title)),
   .ty (.Text alt), .md (.End (.Image p title)), .ty (.End .Paragraph)]

/-! ### Claim theorems -/

/-- C1: While a table is open, cell content is buffered (cell_buffer /
row_buffer) rather than emitted: the serialized table appears as one
deferred block, and the fragment emitted for any non-row-terminating
event does not depend on the current contents of the two buffers. -/
theorem c1_table_defer :
    concatRun markupInit
      [.Start (.Table [TableCellAlignment.none, TableCellAlignment.none]),
       .Start .TableRow,
       .Start .TableCell, .Text "A".data, .End .TableCell,
       .Start .TableCell, .Text "B".data, .End .TableCell,
       .End .TableRow,
       .End (.Table [TableCellAlignment.none, TableCellAlignment.none])]
      = some "#table(\n  columns: 2,\n  [A], [B],\n)\n".data
    ∧ ∀ (st : MarkupState) (b b' r r' : Str) (e : Event),
        isRowEnd e = false →
        stepFrag { st with cell_buffer := some b, row_buffer := some r } e
          = stepFrag { st with cell_buffer := some b', row_buffer := some r' } e := by
  exact ⟨by decide, fun st b b' r r' e he => stepFrag_buffer_independent st b b' r r' e he⟩

/-- Witness for C1: the buffer-independence clause at a concrete state and
event. -/
theorem c1_table_defer_check :
    stepFrag { markupInit with cell_buffer := some "x".data, row_buffer := some "y".data }
        (.Text "z".data)
      = stepFrag { markupInit with cell_buffer := some [], row_buffer := some [] }
        (.Text "z".data) :=
  c1_table_defer.2 markupInit "x".data [] "y".data [] (.Text "z".data) (by decide)

/-- C2: Heading text is accumulated; on `End(Heading)` the derived label
is emitted as `" <label>\n"` and recorded in the label map; a subsequent
`Start(Link)` to `"#My Heading"` resolves through the map to
`#link(<my-heading>)[`; since an unrecorded anchor is relabelled with the
same deterministic `generate_label_id`, both processing orders produce
the same markup. -/
theorem c2_heading_label_roundtrip :
    (∀ (st : MarkupState) (e : Event) (f : Str) (st' : MarkupState),
        markupStep st e = some (f, st') → labelInv st → labelInv st')
    ∧ (∀ (st : MarkupState) (n : Nat) (a b : Bool) (rest : List Tag),
        st.heading_text_buffer = some "My Heading".data →
        st.cell_buffer = none → st.row_buffer = none →
        st.tag_queue = Tag.Heading n a b :: rest →
        markupStep st (.End (.Heading n a b))
          = some (" <my-heading>\n".data,
              { st with
                  heading_text_buffer := none
                  tag_queue := rest
                  label_map := ("My Heading".data, "my-heading".data) :: st.label_map }))
    ∧ (∀ (st : MarkupState) (ty : LinkType),
        labelInv st → st.cell_buffer = none → st.row_buffer = none →
        stepFrag st (.Start (.Link ty "#My Heading".data))
          = some "#link(<my-heading>)[".data)
    ∧ concatRun markupInit
        [.Start (.Heading 1 false false), .Text "My Heading".data,
         .End (.Heading 1 false false),
         .Start .Paragraph, .Start (.Link .content "#My Heading".data),
         .Text "link".data, .End (.Link .content "#My Heading".data),
         .End .Paragraph]
        = some "= My Heading <my-heading>\n#par()[#link(<my-heading>)[link]]\n".data
    ∧ concatRun markupInit
        [.Start .Paragraph, .Start (.Link .content "#My Heading".data),
         .Text "link".data, .End (.Link .content "#My Heading".data),
         .End .Paragraph,
         .Start (.Heading 1 false false), .Text "My Heading".data,
         .End (.Heading 1 false false)]
        = some "#par()[#link(<my-heading>)[link]]\n= My Heading <my-heading>\n".data := by
  refine ⟨fun st e f st' h hinv => markupStep_labelInv st e f st' h hinv, ?_, ?_, by decide, by decide⟩
  · intro st n a b rest hh hc hr ht
    have hgen : generate_label_id "My Heading".data = "my-heading".data := by decide
    have hstr : " <".data ++ "my-heading".data ++ ">\n".data = (" <my-heading>\n".data : Str) := by
      decide
    simp [markupStep, endArm, hh, hgen, hstr, ht, redirectEndOut, hc, hr, isTableRowish]
  · intro st ty hinv hc hr
    have h1 : (if ("#My Heading".data : Str).head? = some '<'
          then "#My Heading".data
          else process_link_url_impl "#My Heading".data (some st.label_map))
        = "<my-heading>".data := by
      rw [if_neg (by decide), link_my_heading st.label_map hinv]
    have h2 : (if ("<my-heading>".data : Str).head? = some '<'
          then "#link(".data ++ "<my-heading>".data ++ ")[".data
          else "#link(\"".data ++ "<my-heading>".data ++ "\")[".data)
        = "#link(<my-heading>)[".data := by decide
    simp only [stepFrag, markupStep, startArm, h1, h2]
    simp [redirectOut, hc, hr]

/-- Witness for C2: the heading-end clause at a concrete state. -/
theorem c2_heading_label_roundtrip_check :
    markupStep
        { markupInit with
            heading_text_buffer := some "My Heading".data
            tag_queue := [Tag.Heading 1 false false] }
        (.End (.Heading 1 false false))
      = some (" <my-heading>\n".data,
          { markupInit with
              label_map := [("My Heading".data, "my-heading".data)] }) :=
  c2_heading_label_roundtrip.2.1
    { markupInit with
        heading_text_buffer := some "My Heading".data
        tag_queue := [Tag.Heading 1 false false] }
    1 false false [] rfl rfl rfl rfl

/-- C3: `ConvertImages` rewrites a paragraph whose only content is an
image into a bare `image` function call — the serialized output carries
no `#par()[` marker — while a paragraph with prose before the image is
closed first and the image call follows it. -/
theorem c3_image_deparagraphing (p alt title prose : Str) :
    imagePipeline 32 (soleShape p alt title)
        = some ("#image(\"".data ++ stripDotSlash p ++ "\")\n".data)
    ∧ imagePipeline 32 (proseShape prose p alt title)
        = some ("#par()[".data ++ typst_escape prose
            ++ "]\n#image(\"".data ++ stripDotSlash p ++ "\")\n".data) := by
  constructor
  · have hci : ciRun 32 ciInit (soleShape p alt title) = some [imageCallEvent p] := rfl
    rw [imagePipeline, hci]
    show concatRun markupInit (filterTypst [imageCallEvent p]) = _
    simp [filterTypst, imageCallEvent, concatRun, markupRun, markupStep, markupInit,
      List.intercalate, List.intersperse]
  · have hci : ciRun 32 ciInit (proseShape prose p alt title)
        = some [.ty (.Start .Paragraph), .ty (.Text prose), .ty (.End .Paragraph),
            imageCallEvent p] := rfl
    rw [imagePipeline, hci]
    show concatRun markupInit (filterTypst
      [.ty (.Start .Paragraph), .ty (.Text prose), .ty (.End .Paragraph),
        imageCallEvent p]) = _
    simp [filterTypst, imageCallEvent, concatRun, markupRun, markupStep, markupInit,
      List.intercalate, List.intersperse, startArm, endArm, redirectOut, redirectEndOut]

/-- C10: in both image-emission paths the `image` call's single argument
is the double-quoted URL, where a leading `"./"` is stripped and any
other URL is passed through unchanged. -/
theorem c10_image_url (p alt title prose : Str) :
    ciRun 32 ciInit (soleShape p alt title) = some [imageCallEvent p]
    ∧ ciRun 32 ciInit (proseShape prose p alt title)
        = some [.ty (.Start .Paragraph), .ty (.Text prose), .ty (.End .Paragraph),
            imageCallEvent p]
    ∧ imageCallEvent p
        = .ty (.FunctionCall none "image".data [['"'] ++ stripDotSlash p ++ ['"']])
    ∧ ("./".data.isPrefixOf p → stripDotSlash p = p.drop 2)
    ∧ (¬ "./".data.isPrefixOf p → stripDotSlash p = p) := by
  refine ⟨rfl, rfl, rfl, fun h => ?_, fun h => ?_⟩
  · rw [stripDotSlash, if_pos h]
  · rw [stripDotSlash, if_neg h]

/-- Witness for C10: the stripping clauses at concrete URLs. -/
theorem c10_image_url_check :
    stripDotSlash "./a.png".data = "a.png".data
    ∧ stripDotSlash "b.png".data = "b.png".data := by
  refine ⟨?_, ?_⟩
  · rw [(c10_image_url "./a.png".data [] [] []).2.2.2.1 (by decide)]
    decide
  · rw [(c10_image_url "b.png".data [] [] []).2.2.2.2 (by decide)]

/-- C4: outside a code block, `Text` content passes through
`typst_escape`, which acts characterwise — backslash-escaping
`$ # < > * \x60 @` and turning `_` into `" \_"` — while inside a code
block (`codeblock_depth > 0`) the text is yielded verbatim. -/
theorem c4_text_escaping :
    (∀ s : Str, typst_escape s = (s.map escCharSpec).flatten)
    ∧ (∀ (st : MarkupState) (x : Str),
        st.cell_buffer = none → st.row_buffer = none →
        st.codeblock_depth = 0 →
        stepFrag st (.Text x) = some ((x.map escCharSpec).flatten))
    ∧ (∀ (st : MarkupState) (x : Str),
        st.cell_buffer = none → st.row_buffer = none →
        0 < st.codeblock_depth →
        stepFrag st (.Text x) = some x) := by
  refine ⟨typst_escape_charwise, ?_, ?_⟩
  · intro st x hc hr hd
    cases hb : st.heading_text_buffer <;>
      simp [stepFrag, markupStep, redirectOut, hb, hc, hr, hd, typst_escape_charwise]
  · intro st x hc hr hd
    have hd' : ¬ st.codeblock_depth = 0 := by omega
    cases hb : st.heading_text_buffer <;>
      simp [stepFrag, markupStep, redirectOut, hb, hc, hr, hd']

/-- Witness for C4: both depth clauses at concrete states and text. -/
theorem c4_text_escaping_check :
    stepFrag markupInit (.Text "a_b".data) = some (("a_b".data.map escCharSpec).flatten)
    ∧ stepFrag { markupInit with codeblock_depth := 1 } (.Text "a_b".data)
        = some "a_b".data :=
  ⟨c4_text_escaping.2.1 markupInit "a_b".data rfl rfl rfl,
   c4_text_escaping.2.2 { markupInit with codeblock_depth := 1 } "a_b".data rfl rfl
     (by decide)⟩

/-- C5 counterexample: the claimed identifier transform would collapse
every non-alphanumeric ASCII character to `'-'`, but `generate_label_id`
only splits on whitespace, so `"a_b"` keeps its underscore instead of
becoming `"a-b"`. -/
theorem c5_label_id_counterexample :
    generate_label_id "a_b".data = "a_b".data
    ∧ claimLabelId "a_b".data = "a-b".data
    ∧ generate_label_id "a_b".data ≠ claimLabelId "a_b".data := by
  decide

/-- C5 (amended): on all-ASCII text — the fragment where the embedding of
Rust's Unicode `is_alphanumeric`/`to_lowercase` is exact — the identifier
equals the text mapped characterwise (letters lowercased; alphanumerics,
`'_'` and every other non-whitespace character kept; each whitespace
character turned into `'-'`), with runs of the resulting `'-'` characters
— whether from whitespace or literal dashes — collapsed to one `'-'` and
leading/trailing dashes trimmed; other non-alphanumeric runs are NOT
collapsed.  On `End(Heading)` the pair `(text, generate_label_id text)` is
recorded exactly once — the heading buffer is cleared, and a heading end
without an open buffer records nothing. -/
theorem c5_label_id :
    (∀ s : Str, (∀ c ∈ s, c.toNat < 128) →
        generate_label_id s = trimDash (collapseDash ((s.map labelChar).flatten)))
    ∧ (∀ (st : MarkupState) (n : Nat) (a b : Bool) (rest : List Tag) (t : Str),
        st.heading_text_buffer = some t →
        (∀ c ∈ t, c.toNat < 128) →
        st.cell_buffer = none → st.row_buffer = none →
        st.tag_queue = Tag.Heading n a b :: rest →
        markupStep st (.End (.Heading n a b))
          = some (" <".data ++ generate_label_id t ++ ">\n".data,
              { st with
                  heading_text_buffer := none
                  tag_queue := rest
                  label_map := (t, generate_label_id t) :: st.label_map }))
    ∧ (∀ (st : MarkupState) (n : Nat) (a b : Bool) (rest : List Tag),
        st.heading_text_buffer = none →
        st.cell_buffer = none → st.row_buffer = none →
        st.tag_queue = Tag.Heading n a b :: rest →
        markupStep st (.End (.Heading n a b))
          = some ("\n".data, { st with tag_queue := rest })) := by
  refine ⟨fun s _ => generate_label_id_collapse s, ?_, ?_⟩
  · intro st n a b rest t hh hta hc hr ht
    simp [markupStep, endArm, hh, ht, redirectEndOut, hc, hr, isTableRowish]
  · intro st n a b rest hh hc hr ht
    simp [markupStep, endArm, hh, ht, redirectEndOut, hc, hr, isTableRowish]

/-- Witness for C5: the characterization at a concrete ASCII string with a
literal dash run, and the recording clause at a concrete state. -/
theorem c5_label_id_check :
    generate_label_id "a--b".data
        = trimDash (collapseDash (("a--b".data.map labelChar).flatten))
    ∧ markupStep
        { markupInit with
            heading_text_buffer := some "A B".data
            tag_queue := [Tag.Heading 2 false false] }
        (.End (.Heading 2 false false))
      = some (" <".data ++ generate_label_id "A B".data ++ ">\n".data,
          { markupInit with
              label_map := [("A B".data, generate_label_id "A B".data)] }) :=
  ⟨c5_label_id.1 "a--b".data (by decide),
   c5_label_id.2.1
    { markupInit with
        heading_text_buffer := some "A B".data
        tag_queue := [Tag.Heading 2 false false] }
    2 false false [] "A B".data rfl (by decide) rfl rfl rfl⟩

/-- C6: on `End(TableCell)` the accumulated cell content is trimmed of
surrounding whitespace, has `*` escaped to `\*` except directly after
another `*` in the pre-escape input, is wrapped in `[...]`, and is
appended to the row buffer with a `", "` separator when the row buffer
is non-empty (an empty accumulated cell yields `[]` likewise). -/
theorem c6_cell_escape :
    (∀ s : Str, cellEscape s = cellEscapeSpec s)
    ∧ (∀ (st : MarkupState) (content buf : Str) (rest : List Tag),
        st.cell_buffer = some content → st.row_buffer = some buf →
        st.tag_queue = Tag.TableCell :: rest →
        markupStep st (.End .TableCell)
          = some ([],
              { st with
                  cell_buffer := none
                  tag_queue := rest
                  row_buffer := some
                    ((if buf ≠ [] then buf ++ ", ".data else buf)
                      ++ wrapCell (cellEscapeSpec content)) }))
    ∧ (∀ (st : MarkupState) (buf : Str) (rest : List Tag),
        st.cell_buffer = none → st.row_buffer = some buf →
        st.tag_queue = Tag.TableCell :: rest →
        markupStep st (.End .TableCell)
          = some ([],
              { st with
                  tag_queue := rest
                  row_buffer := some
                    ((if buf ≠ [] then buf ++ ", ".data else buf) ++ "[]".data) })) := by
  refine ⟨cellEscape_eq_spec, ?_, ?_⟩
  · intro st content buf rest hc hr ht
    simp [markupStep, endArm, hc, hr, ht, rowAppendCell, redirectEndOut, isTableRowish,
      cellEscape_eq_spec]
  · intro st buf rest hc hr ht
    simp [markupStep, endArm, hc, hr, ht, rowAppendCell, redirectEndOut, isTableRowish]

/-- Witness for C6: the cell-closing clause at a concrete state. -/
theorem c6_cell_escape_check :
    markupStep
        { markupInit with
            cell_buffer := some " a*b ".data
            row_buffer := some "[x]".data
            tag_queue := [Tag.TableCell, Tag.TableRow] }
        (.End .TableCell)
      = some ([],
          { markupInit with
              row_buffer := some
                (("[x]".data ++ ", ".data) ++ wrapCell (cellEscapeSpec " a*b ".data))
              tag_queue := [Tag.TableRow] }) := by
  rw [c6_cell_escape.2.1
    { markupInit with
        cell_buffer := some " a*b ".data
        row_buffer := some "[x]".data
        tag_queue := [Tag.TableCell, Tag.TableRow] }
    " a*b ".data "[x]".data [Tag.TableRow] rfl rfl rfl]
  decide

/-- C7 counterexample: with a cell open, `Code` output is appended to the
ROW buffer (not the cell buffer), and `Linebreak` is yielded directly as
a non-empty fragment instead of being captured, as the run
`Table/Row/Cell then Linebreak` shows. -/
theorem c7_cell_capture_counterexample :
    markupRun markupInit
        [.Start (.Table [TableCellAlignment.none]), .Start .TableRow,
         .Start .TableCell, .Linebreak]
      = some ["#table(\n  columns: 1,\n".data, [], [], "#linebreak()\n".data, []]
    ∧ markupStep
        { markupInit with
            tag_queue := [Tag.TableCell, Tag.TableRow, Tag.Table [TableCellAlignment.none]]
            row_buffer := some []
            cell_buffer := some [] }
        .Linebreak
      = some ("#linebreak()\n".data,
          { markupInit with
              tag_queue := [Tag.TableCell, Tag.TableRow, Tag.Table [TableCellAlignment.none]]
              row_buffer := some []
              cell_buffer := some [] })
    ∧ ("#linebreak()\n".data : Str) ≠ []
    ∧ markupStep
        { markupInit with
            tag_queue := [Tag.TableCell, Tag.TableRow, Tag.Table [TableCellAlignment.none]]
            row_buffer := some []
            cell_buffer := some [] }
        (.Code "c".data)
      = some ([],
          { markupInit with
              tag_queue := [Tag.TableCell, Tag.TableRow, Tag.Table [TableCellAlignment.none]]
              row_buffer := some "#raw(\"c\")".data
              cell_buffer := some [] }) := by
  decide

/-- C7 (amended): while a cell is open, `Start`, `End`, `Text` and `Raw`
fragments are captured (the yielded fragment is empty, with `Raw` and
`Text` content appended to the cell buffer), but `Code` appends to the
row buffer, and `Linebreak` / `Parbreak` / `PageBreak` are yielded
directly, bypassing both buffers. -/
theorem c7_cell_capture :
    ∀ (st : MarkupState) (cb rb : Str),
      st.cell_buffer = some cb → st.row_buffer = some rb →
      (∀ (t : Tag) (f : Str) (st' : MarkupState),
          markupStep st (.Start t) = some (f, st') → f = [])
      ∧ (∀ (t : Tag) (f : Str) (st' : MarkupState),
          markupStep st (.End t) = some (f, st') → f = [])
      ∧ (∀ s : Str,
          markupStep st (.Raw s) = some ([], { st with cell_buffer := some (cb ++ s) }))
      ∧ (∀ (s f : Str) (st' : MarkupState),
          markupStep st (.Text s) = some (f, st') →
            f = [] ∧ st'.cell_buffer
              = some (cb ++ (if st.codeblock_depth = 0 then typst_escape s else s)))
      ∧ (∀ s : Str,
          markupStep st (.Code s) = some ([],
            { st with row_buffer := some (rb
                ++ ("#raw(\"".data
                    ++ strReplace (strReplace s "\\".data "\\\\".data)
                        "\"".data "\\\"".data
                    ++ "\")".data)) }))
      ∧ markupStep st .Linebreak = some ("#linebreak()\n".data, st)
      ∧ markupStep st .Parbreak = some ("#parbreak()\n".data, st)
      ∧ markupStep st .PageBreak = some ("#pagebreak()\n".data, st) := by
  intro st cb rb hc hr
  refine ⟨?_, ?_, ?_, ?_, ?_, rfl, rfl, rfl⟩
  · intro t f st' h
    have h2 := stepFrag_start_cell st t cb hc
    rw [stepFrag, h] at h2
    cases hs : startArm st t with
    | none => rw [hs] at h2; simp at h2
    | some p => rw [hs] at h2; simpa using h2
  · intro t f st' h
    have h2 := stepFrag_end_cell st t cb hc
    rw [stepFrag, h] at h2
    split at h2
    · simpa using h2
    · rcases htq : st.tag_queue with _ | ⟨t1, rest⟩ <;> rw [htq] at h2
      · simp at h2
      · split at h2 <;> simp_all
  · intro s
    simp [markupStep, redirectOut, hc]
  · intro s f st' h
    revert h
    cases hb : st.heading_text_buffer <;>
      simp [markupStep, redirectOut, hb, hc] <;>
      rintro h1 h2 <;> exact ⟨h1, by rw [← h2]⟩
  · intro s
    simp [markupStep, hr]

/-- Witness for C7 (amended): the `Code` clause at a concrete state. -/
theorem c7_cell_capture_check :
    markupStep
        { markupInit with cell_buffer := some "x".data, row_buffer := some "y".data }
        (.Code "c".data)
      = some ([],
          { markupInit with
              cell_buffer := some "x".data
              row_buffer := some ("y".data
                ++ ("#raw(\"".data
                    ++ strReplace (strReplace "c".data "\\".data "\\\\".data)
                        "\"".data "\\\"".data
                    ++ "\")".data)) }) :=
  (c7_cell_capture
      { markupInit with cell_buffer := some "x".data, row_buffer := some "y".data }
      "x".data "y".data rfl rfl).2.2.2.2.1 "c".data

/-- C8 counterexample: the opening markup for a block quote is not
`#quote(block: true, quotes: auto)[` — the serializer emits a trailing
comma after the quotes field, so the claimed output string is wrong. -/
theorem c8_quote_literal_counterexample :
    ¬ concatRun markupInit
        [.Start (.Quote .block .auto none), .Text "x".data,
         .End (.Quote .block .auto none)]
      = some "#quote(block: true, quotes: auto)[x]\n".data := by
  decide

/-- C8 (amended): a block quote with automatic quoting opens with
`#quote(block: true, quotes: auto,)[` (trailing comma), and an
attribution is rendered as `attribution: [a]` before the bracket. -/
theorem c8_quote_literal (x a : Str) :
    concatRun markupInit
        [.Start (.Quote .block .auto none), .Text x,
         .End (.Quote .block .auto none)]
      = some ("#quote(block: true, quotes: auto,)[".data
          ++ typst_escape x ++ "]\n".data)
    ∧ concatRun markupInit
        [.Start (.Quote .block .auto (some a)), .Text x,
         .End (.Quote .block .auto (some a))]
      = some ("#quote(block: true, quotes: auto, attribution: [".data ++ a
          ++ "])[".data ++ typst_escape x ++ "]\n".data) := by
  constructor <;>
    simp [concatRun, markupRun, markupStep, markupInit, startArm, endArm,
      redirectOut, redirectEndOut]

/-- C9: when the event stream is exhausted with a pending row buffer, the
buffer is flushed as one final fragment with its trailing `", "`
separator removed (and nothing is flushed when no row is pending), as
the truncated mid-table run demonstrates. -/
theorem c9_end_of_stream_flush :
    (∀ (st : MarkupState) (b : Str),
        st.row_buffer = some b → markupRun st [] = some [trimSep b])
    ∧ (∀ st : MarkupState, st.row_buffer = none → markupRun st [] = some [])
    ∧ (∀ b : Str, trimSep (b ++ ", ".data) = b)
    ∧ concatRun markupInit
        [.Start (.Table [TableCellAlignment.none]), .Start .TableRow,
         .Start .TableCell, .Text "A".data, .End .TableCell]
        = some "#table(\n  columns: 1,\n[A]".data := by
  refine ⟨?_, ?_, ?_, by decide⟩
  · intro st b h
    simp [markupRun, h]
  · intro st h
    simp [markupRun, h]
  · intro b
    have hlen : (b ++ ", ".data).length - 2 = b.length := by simp
    rw [trimSep, if_pos ?hsuf, hlen, List.take_left]
    case hsuf => simp [List.isSuffixOf_iff_suffix]

/-- Witness for C9: the flush clauses at a concrete state and buffer. -/
theorem c9_end_of_stream_flush_check :
    markupRun { markupInit with row_buffer := some "[A], ".data } []
        = some [trimSep "[A], ".data]
    ∧ markupRun markupInit [] = some []
    ∧ trimSep ("[A]".data ++ ", ".data) = "[A]".data :=
  ⟨c9_end_of_stream_flush.1 { markupInit with row_buffer := some "[A], ".data }
      "[A], ".data rfl,
   c9_end_of_stream_flush.2.1 markupInit rfl,
   c9_end_of_stream_flush.2.2.1 "[A]".data⟩
